import Mathlib

/-!
Verification of the docudb document-storage engine (a shallow embedding of
the TypeScript/JavaScript sources in `src/`).

Documents are JSON-like trees.  JavaScript runtime values that can occur in
the relevant code paths are modelled by the inductive type `Value` below;
`undefined` is modelled by `Option Value` (`none` = absent / `undefined`),
since in every code path we embed, `undefined` arises only from failed
property lookups, never as a stored JSON value.  Numbers are modelled by
`Int`: all claims under study involve integer-valued numbers only, where
IEEE-754 doubles behave exactly like integers.
-/

namespace DocuDB

/-- A JSON-like runtime value (string, finite number, boolean, Date object,
array, plain object).  Objects and arrays keep insertion order, exactly like
JavaScript objects with string keys. -/
inductive Value where
  | vNull : Value
  | vStr (s : String) : Value
  | vNum (n : Int) : Value
  | vBool (b : Bool) : Value
  | vDate (ms : Int) : Value
  | vArr (xs : List Value) : Value
  | vObj (fs : List (String × Value)) : Value

/-- A JavaScript object: an insertion-ordered association list from string
keys to values.  Real JS objects never hold a key twice; the operations
below coincide with JS semantics on duplicate-free lists. -/
abbrev Obj := List (String × Value)

/-- Property lookup `o[k]`: first entry with the key, `none` = `undefined`. -/
def alookup {α : Type} (l : List (String × α)) (k : String) : Option α :=
  match l with
  | [] => none
  | (k₀, v₀) :: rest => if k₀ = k then some v₀ else alookup rest k

/-- Property write `o[k] = v`: overwrite the entry in place when the key is
present (the first occurrence, which is the single occurrence for real JS
objects), otherwise append a new entry at the end — JS key insertion order. -/
def aset {α : Type} : List (String × α) → String → α → List (String × α)
  | [], k, v => [(k, v)]
  | (k₀, v₀) :: rest, k, v =>
    if k₀ = k then (k, v) :: rest else (k₀, v₀) :: aset rest k v

/-- Property deletion `delete o[k]`: remove every entry with the key (the
single one for real JS objects). -/
def aerase {α : Type} : List (String × α) → String → List (String × α)
  | [], _ => []
  | (k₀, v₀) :: rest, k =>
    if k₀ = k then aerase rest k else (k₀, v₀) :: aerase rest k

/-- `Object.assign(target, src)`: copy the entries of `src` over `target`
left to right. -/
def objAssign (target src : Obj) : Obj :=
  src.foldl (fun acc e => aset acc e.1 e.2) target

mutual

/-- `deepCopy` from `src/utils` (`deepCopy.ts`): primitives returned as-is,
`Date` rebuilt from its time value, arrays mapped, objects copied key by
key.  On pure values this is the identity (proved below). -/
def deepCopy : Value → Value
  | .vNull => .vNull
  | .vStr s => .vStr s
  | .vNum n => .vNum n
  | .vBool b => .vBool b
  | .vDate ms => .vDate ms
  | .vArr xs => .vArr (deepCopyList xs)
  | .vObj fs => .vObj (deepCopyFields fs)

/-- `deepCopy` elementwise on an array (`obj.map(item => deepCopy(item))`). -/
def deepCopyList : List Value → List Value
  | [] => []
  | x :: rest => deepCopy x :: deepCopyList rest

/-- `deepCopy` on the own enumerable entries of an object. -/
def deepCopyFields : List (String × Value) → List (String × Value)
  | [] => []
  | (k, v) :: rest => (k, deepCopy v) :: deepCopyFields rest

end

/-- `deepCopy` applied to an object document (`deepCopy(doc)` in
`_applyUpdate`). -/
def deepCopyObj (fs : Obj) : Obj := deepCopyFields fs

/-- JS truthiness of a value (`!v` negated).  `null`, `false`, `0` and the
empty string are falsy; every object (including every `Date`) is truthy. -/
def jsTruthy : Value → Bool
  | .vNull => false
  | .vStr s => s ≠ ""
  | .vNum n => n ≠ 0
  | .vBool b => b
  | .vDate _ => true
  | .vArr _ => true
  | .vObj _ => true

/-- JS strict equality `===` on values.  Primitives compare by value; two
distinct object/array/Date references are never strictly equal.  The model
cannot see reference identity, so the object cases return `false`: this
matches JS whenever the two sides are distinct references (always the case
for the literal enum lists `validators.enum.includes(value)` is used with). -/
def jsStrictEq : Value → Value → Bool
  | .vNull, .vNull => true
  | .vStr a, .vStr b => a = b
  | .vNum a, .vNum b => a = b
  | .vBool a, .vBool b => a = b
  | _, _ => false

/-- `Date.prototype.toString` produces an implementation- and
timezone-dependent human-readable string (e.g. `Mon Jan 01 2024 ...`).  No
claim under study evaluates this branch; the model uses a fixed injective
placeholder. -/
def dateToString (ms : Int) : String :=
  "Date(" ++ toString ms ++ ")"

mutual

/-- JS `String(v)` coercion as used by `Array.prototype.join`:
numbers/booleans print canonically, arrays join their elements with `,`
(with `null` elements becoming the empty string), plain objects print
`[object Object]`. -/
def jsStringOf : Value → String
  | .vNull => "null"
  | .vStr s => s
  | .vNum n => toString n
  | .vBool b => cond b "true" "false"
  | .vDate ms => dateToString ms
  | .vArr xs => joinComma xs
  | .vObj _ => "[object Object]"

/-- `Array.prototype.join(",")`: elements that are `null` become the empty
string, all others their `String()` coercion. -/
def joinComma : List Value → String
  | [] => ""
  | [.vNull] => ""
  | [x] => jsStringOf x
  | .vNull :: rest => "," ++ joinComma rest
  | x :: rest => jsStringOf x ++ "," ++ joinComma rest

end

/-- One element of `values.join("|")` in `updateIndex`: `undefined` and
`null` become the empty string (JS `Array.prototype.join` semantics),
everything else its `String()` coercion. -/
def joinElemStr : Option Value → String
  | none => ""
  | some .vNull => ""
  | some v => jsStringOf v

/-- `values.join("|")` over the projected compound-index components. -/
def joinPipe (vs : List (Option Value)) : String :=
  String.intercalate "|" (vs.map joinElemStr)

/-- Convert days since 1970-01-01 to a civil (year, month, day) triple,
proleptic Gregorian (the `days_from_civil` inverse used by every C++/JS
date implementation). -/
def civilFromDays (days : Int) : Int × Int × Int :=
  let z := days + 719468
  let era := Int.fdiv z 146097
  let doe := z - era * 146097
  let yoe := Int.fdiv (doe - Int.fdiv doe 1460 + Int.fdiv doe 36524 - Int.fdiv doe 146096) 365
  let y := yoe + era * 400
  let doy := doe - (365 * yoe + Int.fdiv yoe 4 - Int.fdiv yoe 100)
  let mp := Int.fdiv (5 * doy + 2) 153
  let d := doy - Int.fdiv (153 * mp + 2) 5 + 1
  let m := mp + (if mp < 10 then 3 else -9)
  (y + (if m ≤ 2 then 1 else 0), m, d)

/-- Left-pad the decimal representation of a non-negative integer with
zeros. -/
def padZero (width : Nat) (n : Int) : String :=
  let s := toString n
  let pad := width - s.length
  String.mk (List.replicate pad '0') ++ s

/-- `Date.prototype.toISOString`: `YYYY-MM-DDTHH:mm:ss.sssZ` (expanded
`±YYYYYY` form for years outside 0–9999).  This is what `JSON.stringify`
emits for a `Date` (via `toJSON`). -/
def toISOString (ms : Int) : String :=
  let days := Int.fdiv ms 86400000
  let msOfDay := ms - days * 86400000
  let (y, m, d) := civilFromDays days
  let hh := Int.fdiv msOfDay 3600000
  let mm := Int.fdiv (msOfDay - hh * 3600000) 60000
  let ss := Int.fdiv (msOfDay - hh * 3600000 - mm * 60000) 1000
  let mss := msOfDay - hh * 3600000 - mm * 60000 - ss * 1000
  let ystr :=
    if 0 ≤ y ∧ y ≤ 9999 then padZero 4 y
    else if y < 0 then "-" ++ padZero 6 (-y)
    else "+" ++ padZero 6 y
  ystr ++ "-" ++ padZero 2 m ++ "-" ++ padZero 2 d ++ "T" ++ padZero 2 hh ++ ":" ++
    padZero 2 mm ++ ":" ++ padZero 2 ss ++ "." ++ padZero 3 mss ++ "Z"

/-- Hex digit for a nibble, lowercase. -/
def hexDigit (n : Nat) : Char :=
  if n < 10 then Char.ofNat (48 + n) else Char.ofNat (87 + n)

/-- JSON string escaping of one character, as `JSON.stringify` performs it:
quote and backslash escaped, the five control shorthands, `\u00xx` for the
remaining control characters, everything else verbatim. -/
def jsonEscapeChar (c : Char) : String :=
  if c = '"' then "\\\""
  else if c = '\\' then "\\\\"
  else if c = Char.ofNat 8 then "\\b"
  else if c = Char.ofNat 9 then "\\t"
  else if c = Char.ofNat 10 then "\\n"
  else if c = Char.ofNat 12 then "\\f"
  else if c = Char.ofNat 13 then "\\r"
  else if c.toNat < 32 then
    "\\u00" ++ String.mk [hexDigit (c.toNat / 16), hexDigit (c.toNat % 16)]
  else String.singleton c

/-- Quote and escape a string as a JSON string literal. -/
def jsonQuote (s : String) : String :=
  "\"" ++ String.join (s.data.map jsonEscapeChar) ++ "\""

mutual

/-- `JSON.stringify(v)` for the modelled values.  Key order is insertion
order, no whitespace, dates serialize through `toJSON`/`toISOString`. -/
def jsonStringify : Value → String
  | .vNull => "null"
  | .vStr s => jsonQuote s
  | .vNum n => toString n
  | .vBool b => cond b "true" "false"
  | .vDate ms => jsonQuote (toISOString ms)
  | .vArr xs => "[" ++ jsonStringifyList xs ++ "]"
  | .vObj fs => "\x7b" ++ jsonStringifyFields fs ++ "\x7d"

/-- Comma-joined serialization of array elements. -/
def jsonStringifyList : List Value → String
  | [] => ""
  | [x] => jsonStringify x
  | x :: rest => jsonStringify x ++ "," ++ jsonStringifyList rest

/-- Comma-joined serialization of object entries. -/
def jsonStringifyFields : List (String × Value) → String
  | [] => ""
  | [(k, v)] => jsonQuote k ++ ":" ++ jsonStringify v
  | (k, v) :: rest => jsonQuote k ++ ":" ++ jsonStringify v ++ "," ++ jsonStringifyFields rest

end

/-- String prefix test (`String.startsWith`, re-expressed over the
character list so that it computes by kernel reduction). -/
def strStartsWith (s pfx : String) : Bool :=
  List.isPrefixOf pfx.data s.data

/-- Parse a non-empty all-digit character list as a natural number. -/
def digitsToNat? (cs : List Char) : Option Nat :=
  if cs.isEmpty || ¬ cs.all (fun c => '0' ≤ c && c ≤ '9') then none
  else some (cs.foldl (fun acc c => acc * 10 + (c.toNat - 48)) 0)

/-- Canonical array-index parsing for JS property access: `arr["5"]` hits
index 5, but `arr["05"]` and `arr[""]` are plain (absent) properties
(the canonical decimal form is required). -/
def parseArrayIndex (s : String) : Option Nat :=
  match digitsToNat? s.data with
  | some n => if toString n = s then some n else none
  | none => none

/-- Split a character list at every occurrence of a separator character
(`String.split`-style; the JS `path.split(".")`).  The empty string yields
`[""]`, like in JS. -/
def splitOnCharGo (sep : Char) : List Char → List Char → List (List Char)
  | [], acc => [acc.reverse]
  | c :: rest, acc =>
    if c = sep then acc.reverse :: splitOnCharGo sep rest []
    else splitOnCharGo sep rest (c :: acc)

/-- `path.split(".")` of the dot-notation helpers, over Lean strings. -/
def splitPath (path : String) : List String :=
  (splitOnCharGo '.' path.data []).map String.mk

/-- One step of JS property access `current[part]` for a non-null,
non-undefined `current`, restricted to data properties observable on JSON
values: object keys, array elements and `length`, string characters and
`length`.  Methods and other prototype properties yield functions, which
never occur as indexed document data; they are modelled as absent. -/
def jsIndex : Value → String → Option Value
  | .vObj fs, k => alookup fs k
  | .vArr xs, k =>
    if k = "length" then some (.vNum xs.length)
    else match parseArrayIndex k with
      | some i => xs.get? i
      | none => none
  | .vStr s, k =>
    if k = "length" then some (.vNum s.length)
    else match parseArrayIndex k with
      | some i => (s.data.get? i).map (fun c => .vStr (String.singleton c))
      | none => none
  | _, _ => none

/-- The walk of `_getNestedValue` (identical code in `indexManager.ts` and
`query.ts`): abort with `undefined` when the current value is `null` or
`undefined`, otherwise index and continue. -/
def getNestedGo : Option Value → List String → Option Value
  | cur, [] => cur
  | none, _ :: _ => none
  | some .vNull, _ :: _ => none
  | some (.vStr s), p :: rest => getNestedGo (jsIndex (.vStr s) p) rest
  | some (.vNum n), p :: rest => getNestedGo (jsIndex (.vNum n) p) rest
  | some (.vBool b), p :: rest => getNestedGo (jsIndex (.vBool b) p) rest
  | some (.vDate ms), p :: rest => getNestedGo (jsIndex (.vDate ms) p) rest
  | some (.vArr xs), p :: rest => getNestedGo (jsIndex (.vArr xs) p) rest
  | some (.vObj fs), p :: rest => getNestedGo (jsIndex (.vObj fs) p) rest

/-- `_getNestedValue(obj, path)` of `indexManager.ts` / `query.ts`:
dot-notation descent, `undefined` on a broken path. -/
def getNestedValue (obj : Value) (path : String) : Option Value :=
  getNestedGo (some obj) (splitPath path)

/-- The `field` member of an index: a single field name or an array of
field names.  The source's separate `isCompound` member always equals
`Array.isArray(field)` (both are set together in `createIndex`), so the
model derives it from the shape. -/
inductive FieldSpec where
  | single (f : String)
  | compound (fs : List String)
deriving DecidableEq, Repr

/-- An in-memory index (the `Index` interface of `indexManager.ts`).  The
`metadata` member (`created`/`updated`/`name`) carries no entry data and no
claim under study mentions it, so it is omitted. -/
structure Index where
  field : FieldSpec
  unique : Bool
  sparse : Bool
  entries : List (String × List String)
deriving DecidableEq, Repr

/-- JS `x === undefined` for `x` of TypeScript type `boolean`: the `sparse`
member is assigned `options.sparse === true` in `createIndex` and
round-trips through JSON, so it is always an actual boolean and the
comparison is constantly false.  (This is the check on line 190 of
`indexManager.ts`, whose comment says "index is sparse".) -/
def boolEqUndefined (_b : Bool) : Bool := false

/-- Projection of the indexed value(s) from a document in `updateIndex`:
simple indexes use `_getNestedValue`; compound indexes join the projected
components with `"|"` (so compound values are always strings, never
`undefined`). -/
def projectIndexValue (idx : Index) (doc : Obj) : Option Value :=
  match idx.field with
  | .single f => getNestedValue (.vObj doc) f
  | .compound fs => some (.vStr (joinPipe (fs.map (getNestedValue (.vObj doc)))))

/-- `_getValueKey` of `indexManager.ts`: `null` → `"null"`, `undefined` →
`"undefined"`, `Date` → `date:<epoch-ms>`, objects/arrays →
`obj:<json>`, other primitives → `<typeof>:<String(value)>`. -/
def getValueKey : Option Value → String
  | none => "undefined"
  | some .vNull => "null"
  | some (.vDate ms) => "date:" ++ toString ms
  | some (.vObj fs) => "obj:" ++ jsonStringify (.vObj fs)
  | some (.vArr xs) => "obj:" ++ jsonStringify (.vArr xs)
  | some (.vStr s) => "string:" ++ s
  | some (.vNum n) => "number:" ++ toString n
  | some (.vBool b) => "boolean:" ++ cond b "true" "false"

/-- `_removeDocFromIndex`: filter `docId` out of every bucket, dropping
buckets that become empty. -/
def removeDocEntries (entries : List (String × List String)) (docId : String) :
    List (String × List String) :=
  (entries.map (fun e => (e.1, e.2.filter (fun i => i ≠ docId)))).filter
    (fun e => ¬ e.2.isEmpty)

/-- `_findDocIdByValue`: the first id in the bucket of the value key, or
`null` when the bucket is absent or empty. -/
def findDocIdByValue (idx : Index) (value : Option Value) : Option String :=
  match alookup idx.entries (getValueKey value) with
  | some (d :: _) => some d
  | _ => none

/-- Appending `docId` under `valueKey` in `updateIndex` (create the bucket
when absent, then `push`). -/
def addIndexEntry (entries : List (String × List String)) (valueKey docId : String) :
    List (String × List String) :=
  match alookup entries valueKey with
  | none => entries ++ [(valueKey, [docId])]
  | some ids => aset entries valueKey (ids ++ [docId])

/-- The body of the per-index loop of `updateIndex` for one index:
`none` models the `Unique Index Violation` throw.  Steps in source order:
(1) project the value, (2) the sparse `continue` (dead, see
`boolEqUndefined`), (3) the uniqueness check, (4) `_removeDocFromIndex`,
(5) append under the new value key when the value is defined. -/
def stepIndex (docId : String) (doc : Obj) (idx : Index) : Option Index :=
  let value := projectIndexValue idx doc
  if value.isNone && boolEqUndefined idx.sparse then some idx
  else
    if idx.unique && value.isSome &&
        (match findDocIdByValue idx value with
         | some existingId => existingId ≠ docId
         | none => false) then
      none
    else
      let entriesA := removeDocEntries idx.entries docId
      let entriesB :=
        if value.isSome then addIndexEntry entriesA (getValueKey value) docId else entriesA
      some { idx with entries := entriesB }

/-- Error raised by the index manager. -/
inductive IndexErr where
  | uniqueViolation
deriving DecidableEq, Repr

/-- `updateIndex(collectionName, docId, doc)` over the manager's index map
(insertion-ordered, keys `"<collection>:<fieldSpec>"`).  JS exceptions do
not roll back earlier mutations, so the result pairs the optional error
with the state of the map when the loop stopped: indexes processed before
a violation keep their mutations, the violating index and the remaining
ones are untouched. -/
def updateIndexList (collectionName docId : String) (doc : Obj) :
    List (String × Index) → Option IndexErr × List (String × Index)
  | [] => (none, [])
  | (k, idx) :: rest =>
    if strStartsWith k (collectionName ++ ":") then
      match stepIndex docId doc idx with
      | none => (some .uniqueViolation, (k, idx) :: rest)
      | some idx2 =>
        let res := updateIndexList collectionName docId doc rest
        (res.1, (k, idx2) :: res.2)
    else
      let res := updateIndexList collectionName docId doc rest
      (res.1, (k, idx) :: res.2)

/-- `removeFromIndices(collectionName, docId)`: purge the id from every
index of the collection. -/
def removeFromIndicesList (collectionName docId : String) :
    List (String × Index) → List (String × Index)
  | [] => []
  | (k, idx) :: rest =>
    if strStartsWith k (collectionName ++ ":") then
      (k, { idx with entries := removeDocEntries idx.entries docId }) ::
        removeFromIndicesList collectionName docId rest
    else
      (k, idx) :: removeFromIndicesList collectionName docId rest

/-- Result of `findByIndex`.  `retIds` is the id-list return promised by
the signature and the documentation; `jsTypeError` models the TypeError
thrown by reading `.entries` of `undefined`. -/
inductive FindByIndexResult where
  | retNull
  | retIds (ids : List String)
  | jsTypeError
deriving DecidableEq, Repr

/-- `findByIndex(collectionName, field, value)` as written in the source
(lines 286–296 of `indexManager.ts`): the guard is
`if (index !== undefined) return null` — with the comment "No index for
this field" — so an existing index returns `null`, and a missing index
falls through to `(index as Index).entries[valueKey]`, reading a property
of `undefined`: a TypeError. -/
def findByIndexModel (indices : List (String × Index)) (collectionName fieldName : String)
    (_value : Option Value) : FindByIndexResult :=
  match alookup indices (collectionName ++ ":" ++ fieldName) with
  | some _ => .retNull
  | none => .jsTypeError

/-- `hasIndex(collectionName, field)`: `Boolean(this.indices[indexKey])`. -/
def hasIndexModel (indices : List (String × Index)) (collectionName fieldName : String) : Bool :=
  (alookup indices (collectionName ++ ":" ++ fieldName)).isSome

/-- The `$exists` case of `_evaluateOperator` (`query.ts` line 240), as
written in the source:
`criteriaValue !== undefined ? docValue !== undefined : docValue === undefined`.
`docValue` is the projected field value (`undefined` = absent field),
`criteriaValue` the operand of `$exists` in the criteria object. -/
def evaluateOperatorExists (docValue criteriaValue : Option Value) : Bool :=
  if criteriaValue.isSome then docValue.isSome else docValue.isNone

/-- The loop of `_splitIntoChunks`, structured over a fuel argument (the
input length) so that the recursion is structural: while characters
remain, emit `data.slice(offset, offset + chunkSize)` and advance.  One
chunk consumes at least one character whenever `chunkSize ≥ 1`, so fuel
equal to the input length always suffices. -/
def splitChunksGo (chunkSize : Nat) : Nat → List Char → List (List Char)
  | _, [] => []
  | 0, _ :: _ => []
  | fuel + 1, c :: rest =>
    (c :: rest).take chunkSize :: splitChunksGo chunkSize fuel (rest.drop (chunkSize - 1))

/-- `_splitIntoChunks` of `fileStorage`: slice the serialized string into
consecutive slices of `chunkSize` JS string characters.  JS strings are
sequences of UTF-16 code units; the model uses Lean characters (Unicode
scalar values), which coincide for strings of BMP characters — every
input evaluated in this development is such a string.  For `chunkSize = 0`
the source's while-loop does not advance (it never terminates); the model
is only meaningful for `chunkSize ≥ 1`, which the spec requires. -/
def splitIntoChunks (chunkSize : Nat) (data : List Char) : List (List Char) :=
  splitChunksGo chunkSize data.length data

/-- UTF-8 encoded size of one character. -/
def utf8Len (c : Char) : Nat :=
  if c.toNat < 0x80 then 1
  else if c.toNat < 0x800 then 2
  else if c.toNat < 0x10000 then 3
  else 4

/-- UTF-8 encoded size of a string (what `fs.writeFile` writes for a JS
string chunk). -/
def utf8ByteLength (s : List Char) : Nat :=
  (s.map utf8Len).sum

/-- The chunk contents produced by `saveData(collectionName, data)`:
`JSON.stringify(data)` split by `_splitIntoChunks` (compression, when
enabled, is applied per chunk after this split). -/
def saveDataChunks (chunkSize : Nat) (data : Value) : List (List Char) :=
  splitIntoChunks chunkSize (jsonStringify data).data

/-- Case-insensitive hex digit (the `/i`-flagged character classes of
`uuidUtils.js`). -/
def isHexDigitCI (c : Char) : Bool :=
  ('0' ≤ c && c ≤ '9') || ('a' ≤ c && c ≤ 'f') || ('A' ≤ c && c ≤ 'F')

/-- Lowercase-only hex digit (`[0-9a-f]` without the `/i` flag). -/
def isHexDigitLower (c : Char) : Bool :=
  ('0' ≤ c && c ≤ '9') || ('a' ≤ c && c ≤ 'f')

/-- `isValidMongoID` of `uuidUtils.js`: `/^[0-9a-f]{24}$/i` (the falsy
guard is subsumed: a 24-character string is never falsy). -/
def isValidMongoID (id : String) : Bool :=
  id.length = 24 && id.data.all isHexDigitCI

/-- `isValidUUID` of `uuidUtils.js`:
`/^[0-9a-f]{8}-[0-9a-f]{4}-4[0-9a-f]{3}-[89ab][0-9a-f]{3}-[0-9a-f]{12}$/i`. -/
def isValidUUID (uuid : String) : Bool :=
  let cs := uuid.data
  cs.length = 36 &&
  (List.range 36).all (fun i =>
    match cs.get? i with
    | none => false
    | some c =>
      if i = 8 || i = 13 || i = 18 || i = 23 then c = '-'
      else if i = 14 then c = '4'
      else if i = 19 then
        c = '8' || c = '9' || c = 'a' || c = 'b' || c = 'A' || c = 'B'
      else isHexDigitCI c)

/-- `isValidID` of `uuidUtils.js`. -/
def isValidID (id : String) : Bool :=
  isValidUUID id || isValidMongoID id

/-- The id-validation block shared verbatim by `findById`, `updateById`
and `deleteById` in `database.ts`: when the schema defines
`_id.validate.pattern` only a string-type check applies (ids are strings in
the model), otherwise `isValidID` must hold. -/
def idCheckStd (hasIdPattern : Bool) (id : String) : Bool :=
  if hasIdPattern then true else isValidID id

/-- The id-validation of `getPosition` (`database.ts` lines 1002–1014): a
string-type check followed by the hard-coded `/^[0-9a-f]{24}$/` test —
lowercase 24-hex only, no schema-pattern exemption, no UUID acceptance. -/
def idCheckGetPosition (id : String) : Bool :=
  id.length = 24 && id.data.all isHexDigitLower

/-- The `type` strings accepted by `_validateType` of `schema.ts`.  The
source also accepts a constructor function (`value instanceof type`);
that variant carries arbitrary JS callables, is used by no claim and is
not modelled. -/
inductive FieldType where
  | tString
  | tNumber
  | tBoolean
  | tDate
  | tObject
  | tArray
deriving DecidableEq, Repr

/-- The `validate` constraint set of a field definition.  A compiled
regular expression is opaque executable state in JS as well; `pattern`
carries its matching function (`RegExp.prototype.test`).  `custom` and
`message` are absent here because `_runValidators` in the source never
reads them. -/
structure Validators where
  min : Option Int := none
  max : Option Int := none
  minLength : Option Nat := none
  maxLength : Option Nat := none
  pattern : Option (String → Bool) := none
  enum : Option (List Value) := none

/-- A `default` entry: a static value or a callback
`fn(document, fieldName)`. -/
inductive DefaultVal where
  | value (v : Value)
  | func (f : Obj → String → Value)

/-- One field definition of a schema.  `default := none` models the
`default` key being absent (`'default' in fieldDef` is false);
`type := none` models an absent or unrecognized `type`, which
`_validateType` accepts. -/
structure FieldDef where
  type : Option FieldType := none
  required : Bool := false
  default : Option DefaultVal := none
  validate : Option Validators := none
  transform : Option (Value → Value) := none

/-- Schema options after the constructor normalization:
`strict: options.strict !== false`, `timestamps: options.timestamps === true`. -/
structure SchemaOptions where
  strict : Bool := true
  timestamps : Bool := false

/-- Errors raised by `Schema.validate` (error codes of `MCO_ERROR.SCHEMA`;
the `{field, value}` detail payloads are carried as the field name). -/
inductive SchemaErr where
  | invalidDocument
  | requiredField (field : String)
  | invalidType (field : String)
  | invalidValue (field : String)
  | invalidLength (field : String)
  | invalidRegex (field : String)
  | invalidEnum (field : String)
  | invalidField (field : String)
deriving DecidableEq, Repr

/-- JS `value === undefined || value === null` on a looked-up property. -/
def isNullish : Option Value → Bool
  | none => true
  | some .vNull => true
  | some _ => false

/-- `_validateType` of `schema.ts`: `number` rejects NaN (NaN is not
representable in the integer-valued model), `object` requires a non-null
non-array object, unknown types are assumed valid. -/
def validateType (value : Value) (t : Option FieldType) : Bool :=
  match t with
  | none => true
  | some .tString => match value with | .vStr _ => true | _ => false
  | some .tNumber => match value with | .vNum _ => true | _ => false
  | some .tBoolean => match value with | .vBool _ => true | _ => false
  | some .tDate => match value with | .vDate _ => true | _ => false
  | some .tArray => match value with | .vArr _ => true | _ => false
  | some .tObject => match value with | .vObj _ => true | _ => false

/-- JS `value.length` where `_runValidators` reads it: string length or
array length. -/
def jsLenOf : Value → Option Nat
  | .vStr s => some s.length
  | .vArr xs => some xs.length
  | _ => none

/-- The `min` check of `_runValidators` (numbers only). -/
def checkMin (field : String) (value : Value) (vs : Validators) : Option SchemaErr :=
  match value, vs.min with
  | .vNum n, some m => if n < m then some (.invalidValue field) else none
  | _, _ => none

/-- The `max` check of `_runValidators` (numbers only). -/
def checkMax (field : String) (value : Value) (vs : Validators) : Option SchemaErr :=
  match value, vs.max with
  | .vNum n, some m => if n > m then some (.invalidValue field) else none
  | _, _ => none

/-- The `minLength` check of `_runValidators` (strings and arrays). -/
def checkMinLength (field : String) (value : Value) (vs : Validators) : Option SchemaErr :=
  match jsLenOf value, vs.minLength with
  | some len, some m => if len < m then some (.invalidLength field) else none
  | _, _ => none

/-- The `maxLength` check of `_runValidators` (strings and arrays). -/
def checkMaxLength (field : String) (value : Value) (vs : Validators) : Option SchemaErr :=
  match jsLenOf value, vs.maxLength with
  | some len, some m => if len > m then some (.invalidLength field) else none
  | _, _ => none

/-- The `pattern` check of `_runValidators` (strings only; the compiled
regex is its matching function). -/
def checkPattern (field : String) (value : Value) (vs : Validators) : Option SchemaErr :=
  match value, vs.pattern with
  | .vStr s, some p => if p s then none else some (.invalidRegex field)
  | _, _ => none

/-- The `enum` check of `_runValidators`
(`Array.prototype.includes`: strict equality). -/
def checkEnum (field : String) (value : Value) (vs : Validators) : Option SchemaErr :=
  match vs.enum with
  | some l => if l.any (fun x => jsStrictEq x value) then none else some (.invalidEnum field)
  | none => none

/-- `_runValidators` of `schema.ts`: the checks run in source order
(`min`, `max`, `minLength`, `maxLength`, `pattern`, `enum`) and the first
failure wins (the source raises at the first violated constraint). -/
def runValidators (field : String) (value : Value) (vs : Validators) : Option SchemaErr :=
  checkMin field value vs <|> checkMax field value vs <|> checkMinLength field value vs <|>
    checkMaxLength field value vs <|> checkPattern field value vs <|> checkEnum field value vs

/-- The per-field loop of `Schema.validate` (`schema.ts` lines 55–112), in
definition order: required check (which treats `null` like absent, lines
59–65), default application (also for `null`, lines 68–78), type check,
constraint checks, transform, assignment into the output document. -/
def validateFields (doc : Obj) : List (String × FieldDef) → Obj → Except SchemaErr Obj
  | [], acc => .ok acc
  | (field, fd) :: rest, acc =>
    let value := alookup doc field
    if fd.required && isNullish value then
      .error (.requiredField field)
    else if isNullish value then
      match fd.default with
      | some (.func f) => validateFields doc rest (aset acc field (f doc field))
      | some (.value dv) => validateFields doc rest (aset acc field dv)
      | none => validateFields doc rest acc
    else
      match value with
      | some v =>
        if ¬ validateType v fd.type then .error (.invalidType field)
        else
          let afterRules : Option SchemaErr :=
            match fd.validate with
            | some vs => runValidators field v vs
            | none => none
          match afterRules with
          | some e => .error e
          | none =>
            let outVal := match fd.transform with
              | some t => t v
              | none => v
            validateFields doc rest (aset acc field outVal)
      | none =>
        -- unreachable: `isNullish value = false` implies `value = some _`
        validateFields doc rest acc

/-- The timestamp block at the end of `Schema.validate` (`schema.ts` lines
137–145): when `timestamps` is on, `_createdAt` is copied from the input
when truthy there and set to `now` otherwise, and `_updatedAt` is set to
`now`. -/
def applyTimestamps (opts : SchemaOptions) (acc : Obj) (doc : Obj) (now : Int) : Obj :=
  if opts.timestamps then
    let acc2 :=
      match alookup doc "_createdAt" with
      | some v => if jsTruthy v then aset acc "_createdAt" v else aset acc "_createdAt" (.vDate now)
      | none => aset acc "_createdAt" (.vDate now)
    aset acc2 "_updatedAt" (.vDate now)
  else acc

/-- `Schema.validate(document)` for an object document, starting from the
empty output object: the field loop, then the strict-mode check for extra
non-underscore keys (first offender in insertion order), the pass-through
of extra keys when not strict, and the timestamp block (`_createdAt` is
kept only when truthy in the input — `if (!document._createdAt)` — and
`_updatedAt` is always set to `now`).  The document-must-be-an-object
guard is satisfied by the `Obj` input type. -/
def validateDoc (definition : List (String × FieldDef)) (opts : SchemaOptions)
    (doc : Obj) (now : Int) : Except SchemaErr Obj :=
  match validateFields doc definition [] with
  | .error e => .error e
  | .ok acc =>
    let extraOffender : Option (String × Value) :=
      doc.find? (fun e => (alookup definition e.1).isNone && ¬ strStartsWith e.1 "_")
    if opts.strict then
      match extraOffender with
      | some e => .error (.invalidField e.1)
      | none => .ok (applyTimestamps opts acc doc now)
    else
      let acc2 := doc.foldl
        (fun a e =>
          if (alookup definition e.1).isNone && ¬ strStartsWith e.1 "_" then aset a e.1 e.2 else a)
        acc
      .ok (applyTimestamps opts acc2 doc now)

/-- `schemaHasIdPattern`: the controller's reflection
`this.schema?.definition?._id?.validate?.pattern !== undefined`. -/
def schemaHasIdPattern (definition : List (String × FieldDef)) : Bool :=
  match alookup definition "_id" with
  | some fd =>
    match fd.validate with
    | some vs => vs.pattern.isSome
    | none => false
  | none => false

/-- Errors surfaced by the collection controller.  The source wraps causes
in outer error codes (`UPDATE_ERROR`, `DELETE_ERROR`, ...) with
`originalError` chains; the model keeps the root cause, which is what the
claims distinguish. -/
inductive DBErr where
  | invalidId
  | invalidUpdateOperator (op : String)
  | invalidTypeInc (field : String)
  | schemaError (e : SchemaErr)
  | indexError (e : IndexErr)
  | jsTypeError
deriving DecidableEq, Repr

/-- JS `typeof v === 'object'` (true for `null`, objects, arrays, dates). -/
def typeofIsObject : Value → Bool
  | .vObj _ => true
  | .vArr _ => true
  | .vDate _ => true
  | .vNull => true
  | _ => false

/-- Non-null object check (`typeof v === 'object' && v !== null`). -/
def isObjectNonNull : Value → Bool
  | .vObj _ => true
  | .vArr _ => true
  | .vDate _ => true
  | _ => false

/-- The walk of `database.ts`'s own `_getNestedValue`: unlike the
indexManager/query variant it also aborts when the current value is not an
object (`typeof current !== 'object'`), so no string/number properties are
reachable.  `Date` objects pass the guard but carry no data properties
(`jsIndex` yields `none`). -/
def dbGetNestedGo : Option Value → List String → Option Value
  | cur, [] => cur
  | none, _ :: _ => none
  | some v, p :: rest =>
    if isObjectNonNull v then dbGetNestedGo (jsIndex v p) rest else none

/-- `_getNestedValue(obj, path)` of `database.ts`. -/
def dbGetNestedValue (obj : Obj) (path : String) : Option Value :=
  dbGetNestedGo (some (.vObj obj)) (splitPath path)

/-- The walk of `_setNestedValue` (`database.ts` lines 1276–1290) on the
value tree.  `.error ()` covers the executions that throw a JS TypeError
(walking into or assigning on `null`, which `typeof` treats as an object
and which is therefore not replaced by `{}`) together with the executions
whose JS effect is not representable on JSON document trees and which no
claim exercises: out-of-bounds array writes (holes), expando properties on
arrays and `Date`s. -/
def setNestedGo : Value → List String → Value → Except Unit Value
  | cur, [], _v => .ok cur
  | cur, [last], v =>
    match cur with
    | .vObj fs => .ok (.vObj (aset fs last v))
    | .vArr xs =>
      match parseArrayIndex last with
      | some i => if i < xs.length then .ok (.vArr (xs.set i v)) else .error ()
      | none => .error ()
    | .vNull => .error ()
    | _ => .error ()
  | cur, p :: rest₁ :: rest₂, v =>
    match cur with
    | .vObj fs =>
      let child :=
        match alookup fs p with
        | none => .vObj []
        | some c => if typeofIsObject c then c else .vObj []
      match setNestedGo child (rest₁ :: rest₂) v with
      | .ok c2 => .ok (.vObj (aset fs p c2))
      | .error e => .error e
    | .vArr xs =>
      match parseArrayIndex p with
      | some i =>
        match xs.get? i with
        | some c =>
          let child := if typeofIsObject c then c else .vObj []
          match setNestedGo child (rest₁ :: rest₂) v with
          | .ok c2 => .ok (.vArr (xs.set i c2))
          | .error e => .error e
        | none => .error ()
      | none => .error ()
    | .vNull => .error ()
    | _ => .error ()

/-- `_setNestedValue(obj, path, value)`: auto-create intermediate plain
objects, assign at the last path segment. -/
def setNestedValue (obj : Obj) (path : String) (v : Value) : Except Unit Obj :=
  match setNestedGo (.vObj obj) (splitPath path) v with
  | .ok (.vObj fs) => .ok fs
  | .ok _ => .error ()
  | .error e => .error e

/-- The walk of `_unsetNestedValue` (`database.ts` lines 1298–1310):
silently return when an intermediate is absent or not object-typed,
`delete` at the last segment.  `.error ()` as in `setNestedGo` (array-hole
deletions and `null` traversal). -/
def unsetNestedGo : Value → List String → Except Unit Value
  | cur, [] => .ok cur
  | cur, [last] =>
    match cur with
    | .vObj fs => .ok (.vObj (aerase fs last))
    | .vArr xs =>
      match parseArrayIndex last with
      | some i => if i < xs.length then .error () else .ok (.vArr xs)
      | none => if last = "length" then .error () else .ok (.vArr xs)
    | .vDate ms => .ok (.vDate ms)
    | .vNull => .error ()
    | _ => .error ()
  | cur, p :: rest₁ :: rest₂ =>
    match cur with
    | .vObj fs =>
      match alookup fs p with
      | none => .ok (.vObj fs)
      | some c =>
        if typeofIsObject c then
          match unsetNestedGo c (rest₁ :: rest₂) with
          | .ok c2 => .ok (.vObj (aset fs p c2))
          | .error e => .error e
        else .ok (.vObj fs)
    | .vArr xs =>
      match parseArrayIndex p with
      | some i =>
        match xs.get? i with
        | some c =>
          if typeofIsObject c then
            match unsetNestedGo c (rest₁ :: rest₂) with
            | .ok c2 => .ok (.vArr (xs.set i c2))
            | .error e => .error e
          else .ok (.vArr xs)
        | none => .ok (.vArr xs)
      | none => .ok (.vArr xs)
    | .vDate ms => .ok (.vDate ms)
    | .vNull => .error ()
    | _ => .ok cur

/-- `_unsetNestedValue(obj, path)`. -/
def unsetNestedValue (obj : Obj) (path : String) : Except Unit Obj :=
  match unsetNestedGo (.vObj obj) (splitPath path) with
  | .ok (.vObj fs) => .ok fs
  | .ok _ => .error ()
  | .error e => .error e

/-- The first segment of a dot-notation path — the only top-level key a
nested set/unset/inc at this path can write. -/
def headSegment (path : String) : String :=
  (splitPath path).headD path

/-- JS `x != null` lookup: the property value when present and non-null. -/
def lookupNN (o : Obj) (k : String) : Option Value :=
  match alookup o k with
  | some .vNull => none
  | some v => some v
  | none => none

/-- `Object.entries(v)` for a non-null value: object entries in insertion
order, arrays and strings indexed, primitives empty. -/
def jsEntries : Value → List (String × Value)
  | .vObj fs => fs
  | .vArr xs => xs.enum.map (fun e => (toString e.1, e.2))
  | .vStr s => s.data.enum.map (fun e => (toString e.1, .vStr (String.singleton e.2)))
  | _ => []

/-- `Object.keys(v)`. -/
def jsKeys (v : Value) : List String :=
  (jsEntries v).map Prod.fst

/-- JS `a + v` for a number `a` (the `$inc` addition `currentValue + value`
— only `currentValue` is type-checked by the source, so a non-numeric
operand coerces: strings concatenate, booleans and `null` act as numbers,
objects/arrays/dates concatenate via their string coercion). -/
def jsAddNum (a : Int) (v : Value) : Value :=
  match v with
  | .vNum b => .vNum (a + b)
  | .vStr s => .vStr (toString a ++ s)
  | .vBool b => .vNum (a + cond b 1 0)
  | .vNull => .vNum a
  | .vDate ms => .vStr (toString a ++ dateToString ms)
  | .vArr xs => .vStr (toString a ++ joinComma xs)
  | .vObj _ => .vStr (toString a ++ "[object Object]")

/-- The `$set` loop of `_applyUpdate`. -/
def applySetEntries : Obj → List (String × Value) → Except DBErr Obj
  | o, [] => .ok o
  | o, (k, v) :: rest =>
    match setNestedValue o k v with
    | .ok o2 => applySetEntries o2 rest
    | .error _ => .error .jsTypeError

/-- The `$unset` loop of `_applyUpdate`. -/
def applyUnsetKeys : Obj → List String → Except DBErr Obj
  | o, [] => .ok o
  | o, k :: rest =>
    match unsetNestedValue o k with
    | .ok o2 => applyUnsetKeys o2 rest
    | .error _ => .error .jsTypeError

/-- The `$inc` loop of `_applyUpdate`: read the current value
(`?? 0` turns both absent and `null` into `0`), require it numeric
(`InvalidType` otherwise), add, write back. -/
def applyIncEntries : Obj → List (String × Value) → Except DBErr Obj
  | o, [] => .ok o
  | o, (k, v) :: rest =>
    let currentValue :=
      match dbGetNestedValue o k with
      | none => Value.vNum 0
      | some .vNull => Value.vNum 0
      | some c => c
    match currentValue with
    | .vNum a =>
      match setNestedValue o k (jsAddNum a v) with
      | .ok o2 => applyIncEntries o2 rest
      | .error _ => .error .jsTypeError
    | _ => .error (.invalidTypeInc k)

/-- `_applyUpdate(doc, update)` (`database.ts` lines 1230–1267).  When none
of `$set`/`$unset`/`$inc` is present (non-null), the update is a
replacement: shallow-merge `update` over a deep copy of `doc` and restore
the original `_id` (when the document had no `_id`, JS restores
`undefined`, observationally an absent key).  Otherwise the three operator
blocks run in order; `$push`/`$pull`/`$addToSet` keys are never consulted
here. -/
def applyUpdate (doc : Obj) (update : Obj) : Except DBErr Obj :=
  let result := deepCopyObj doc
  if (lookupNN update "$set").isNone && (lookupNN update "$unset").isNone &&
      (lookupNN update "$inc").isNone then
    let idv := alookup result "_id"
    let merged := objAssign result update
    match idv with
    | some i => .ok (aset merged "_id" i)
    | none => .ok (aerase merged "_id")
  else
    match (match lookupNN update "$set" with
           | some sv => applySetEntries result (jsEntries sv)
           | none => .ok result) with
    | .error e => .error e
    | .ok r1 =>
      match (match lookupNN update "$unset" with
             | some uv => applyUnsetKeys r1 (jsKeys uv)
             | none => .ok r1) with
      | .error e => .error e
      | .ok r2 =>
        match lookupNN update "$inc" with
        | some iv => applyIncEntries r2 (jsEntries iv)
        | none => .ok r2

/-- A cached document (`this.documents[id]`): its data and chunk paths. -/
structure CacheEntry where
  data : Obj
  chunkPaths : List String

/-- The persisted collection metadata fields the modelled operations
touch.  Timestamps are epoch milliseconds. -/
structure Metadata where
  count : Int
  documentOrder : List String
  updated : Int

/-- A schema attached to a collection. -/
structure SchemaModel where
  definition : List (String × FieldDef)
  options : SchemaOptions

/-- The state a collection controller operation reads and writes: the
in-memory document cache, the documents on disk (each directory
`<name>/<id>/` with its ordered chunk files and their decoded JSON
content), the metadata, and the index manager's map. -/
structure CollectionState where
  name : String
  cache : List (String × CacheEntry)
  disk : List (String × CacheEntry)
  metadata : Metadata
  indices : List (String × Index)
  schema : Option SchemaModel

/-- `this.schema?.definition?._id?.validate?.pattern !== undefined`. -/
def hasIdPatternState (s : CollectionState) : Bool :=
  match s.schema with
  | some sch => schemaHasIdPattern sch.definition
  | none => false

/-- `findById(id)` (`database.ts` lines 467–540): id validation, cache
lookup, then the document directory: missing directory or no chunk files →
`null`; otherwise read the chunks (the model's disk entry carries the
numerically-sorted chunk list and its decoded content) and fill the
cache. -/
def findByIdModel (s : CollectionState) (id : String) :
    Except DBErr (Option Obj × CollectionState) :=
  if ¬ idCheckStd (hasIdPatternState s) id then .error .invalidId
  else
    match alookup s.cache id with
    | some e => .ok (some e.data, s)
    | none =>
      match alookup s.disk id with
      | none => .ok (none, s)
      | some d =>
        if d.chunkPaths.isEmpty then .ok (none, s)
        else .ok (some d.data, { s with cache := aset s.cache id ⟨d.data, d.chunkPaths⟩ })

/-- The update-operator whitelist of `updateById`. -/
def validOperators : List String :=
  ["$set", "$unset", "$inc", "$push", "$pull", "$addToSet"]

/-- `updateById(id, update)` (`database.ts` lines 595–727): id validation,
`findById`, operator validation, `_applyUpdate`, schema re-validation
(result discarded by the source), then under the per-document lock (free
in this single-operation model): chunk write, cache update, metadata bump
and `updateIndex`.  `savePaths` abstracts the chunk paths `saveData`
returns; replacing the disk entry subsumes the old-chunk deletion. -/
def updateByIdModel (s : CollectionState) (id : String) (update : Obj) (now : Int)
    (savePaths : Obj → List String) : Except DBErr (Option Obj × CollectionState) :=
  if ¬ idCheckStd (hasIdPatternState s) id then .error .invalidId
  else
    match findByIdModel s id with
    | .error e => .error e
    | .ok (none, s1) => .ok (none, s1)
    | .ok (some doc, s1) =>
      let ops := (update.map Prod.fst).filter (fun k => strStartsWith k "$")
      match ops.find? (fun op => ¬ validOperators.contains op) with
      | some op => .error (.invalidUpdateOperator op)
      | none =>
        match applyUpdate doc update with
        | .error e => .error e
        | .ok updatedDoc =>
          let schemaCheck : Option SchemaErr :=
            match s.schema with
            | some sch =>
              match validateDoc sch.definition sch.options updatedDoc now with
              | .error e => some e
              | .ok _ => none
            | none => none
          match schemaCheck with
          | some e => .error (.schemaError e)
          | none =>
            let newPaths := savePaths updatedDoc
            let s2 : CollectionState :=
              { s1 with
                disk := aset s1.disk id ⟨updatedDoc, newPaths⟩,
                cache := aset s1.cache id ⟨updatedDoc, newPaths⟩,
                metadata := { s1.metadata with updated := now } }
            match updateIndexList s2.name id updatedDoc s2.indices with
            | (some e, _) => .error (.indexError e)
            | (none, idx2) => .ok (some updatedDoc, { s2 with indices := idx2 })

/-- `deleteById(id)` (`database.ts` lines 770–839): id validation,
`findById` (absent → `false` with nothing touched), then chunk deletion,
document-directory removal, `removeFromIndices`, cache eviction and the
metadata updates. -/
def deleteByIdModel (s : CollectionState) (id : String) (now : Int) :
    Except DBErr (Bool × CollectionState) :=
  if ¬ idCheckStd (hasIdPatternState s) id then .error .invalidId
  else
    match findByIdModel s id with
    | .error e => .error e
    | .ok (none, s1) => .ok (false, s1)
    | .ok (some _, s1) =>
      let s2 : CollectionState := { s1 with disk := aerase s1.disk id }
      let s3 : CollectionState :=
        { s2 with
          indices := removeFromIndicesList s2.name id s2.indices,
          cache := aerase s2.cache id,
          metadata :=
            { count := max 0 (s2.metadata.count - 1),
              updated := now,
              documentOrder := s2.metadata.documentOrder.filter (fun d => d ≠ id) } }
      .ok (true, s3)

/-- Whether `findById` would find a document for the id (used by
`_loadAllDocuments`, which probes every document directory). -/
def docFound (s : CollectionState) (id : String) : Bool :=
  (alookup s.cache id).isSome ||
    (match alookup s.disk id with
     | some d => ¬ d.chunkPaths.isEmpty
     | none => false)

/-- The data `findById` yields for an id (cache first, then disk). -/
def docDataOf (s : CollectionState) (id : String) : Option Obj :=
  match alookup s.cache id with
  | some e => some e.data
  | none =>
    match alookup s.disk id with
    | some d => if d.chunkPaths.isEmpty then none else some d.data
    | none => none

/-- `_loadAllDocuments`: load every document directory (the model uses the
disk list's order for `readdir`), then order by `metadata.documentOrder`
first (ids present in the map, in order) followed by the remaining loaded
documents. -/
def loadAllDocsList (s : CollectionState) : List Obj :=
  let present := (s.disk.map Prod.fst).filter (docFound s)
  let orderedIds :=
    s.metadata.documentOrder.filter (fun id => present.contains id) ++
      present.filter (fun id => ¬ s.metadata.documentOrder.contains id)
  orderedIds.filterMap (docDataOf s)

/-- `getPosition(id)` (`database.ts` lines 1001–1037): the hard-coded
lowercase-24-hex validation, then `findById` (absent → `-1`), then the
index of the document with `doc._id === id` in the `_loadAllDocuments`
order. -/
def getPositionModel (s : CollectionState) (id : String) : Except DBErr Int :=
  if ¬ idCheckGetPosition id then .error .invalidId
  else
    match findByIdModel s id with
    | .error e => .error e
    | .ok (none, _) => .ok (-1)
    | .ok (some _, s1) =>
      match (loadAllDocsList s1).findIdx?
          (fun d => match alookup d "_id" with
                    | some (Value.vStr s2) => s2 == id
                    | _ => false) with
      | some i => .ok (Int.ofNat i)
      | none => .ok (-1)

end DocuDB

namespace DocuDB

/-! ## General lemmas about the embedded operations -/

mutual

/-- `deepCopy` is the identity on pure values. -/
theorem deepCopy_eq_id : ∀ v, deepCopy v = v
  | .vNull => rfl
  | .vStr _ => rfl
  | .vNum _ => rfl
  | .vBool _ => rfl
  | .vDate _ => rfl
  | .vArr xs => by rw [deepCopy, deepCopyList_eq_id]
  | .vObj fs => by rw [deepCopy, deepCopyFields_eq_id]

/-- `deepCopy` is the identity on value lists. -/
theorem deepCopyList_eq_id : ∀ xs : List Value, deepCopyList xs = xs
  | [] => rfl
  | x :: rest => by rw [deepCopyList, deepCopy_eq_id, deepCopyList_eq_id]

/-- `deepCopy` is the identity on object entry lists. -/
theorem deepCopyFields_eq_id : ∀ fs : List (String × Value), deepCopyFields fs = fs
  | [] => rfl
  | (k, v) :: rest => by rw [deepCopyFields, deepCopy_eq_id, deepCopyFields_eq_id]

end

/-- `deepCopy` is the identity on object documents. -/
theorem deepCopyObj_eq_id (fs : Obj) : deepCopyObj fs = fs :=
  deepCopyFields_eq_id fs

/-- Looking up the key just written returns the written value. -/
theorem alookup_aset_self {α : Type} (l : List (String × α)) (k : String) (v : α) :
    alookup (aset l k v) k = some v := by
  induction l with
  | nil => simp [aset, alookup]
  | cons e rest ih =>
    obtain ⟨k0, v0⟩ := e
    by_cases he : k0 = k
    · simp [aset, alookup, he]
    · simp [aset, alookup, he, ih]

/-- Writing one key leaves the other keys unchanged. -/
theorem alookup_aset_ne {α : Type} (l : List (String × α)) (k k2 : String) (v : α)
    (h : k2 ≠ k) : alookup (aset l k v) k2 = alookup l k2 := by
  induction l with
  | nil => simp [aset, alookup, Ne.symm h]
  | cons e rest ih =>
    obtain ⟨k0, v0⟩ := e
    by_cases he : k0 = k
    · subst he
      simp [aset, alookup, Ne.symm h]
    · simp [aset, alookup, he, ih]

/-- Looking up a deleted key yields `undefined`. -/
theorem alookup_aerase_self {α : Type} (l : List (String × α)) (k : String) :
    alookup (aerase l k) k = none := by
  induction l with
  | nil => simp [aerase, alookup]
  | cons e rest ih =>
    obtain ⟨k0, v0⟩ := e
    by_cases he : k0 = k
    · simpa [aerase, alookup, he] using ih
    · simpa [aerase, alookup, he] using ih

/-- Deleting one key leaves the other keys unchanged. -/
theorem alookup_aerase_ne {α : Type} (l : List (String × α)) (k k2 : String)
    (h : k2 ≠ k) : alookup (aerase l k) k2 = alookup l k2 := by
  induction l with
  | nil => simp [aerase, alookup]
  | cons e rest ih =>
    obtain ⟨k0, v0⟩ := e
    by_cases he : k0 = k
    · subst he
      simp [aerase, alookup, Ne.symm h, ih]
    · by_cases h2 : k0 = k2 <;> simp [aerase, alookup, he, h2, ih, h]

/-- A key that appears in no entry looks up to `undefined`. -/
theorem alookup_eq_none_of_not_mem {α : Type} (l : List (String × α)) (k : String)
    (h : k ∉ l.map Prod.fst) : alookup l k = none := by
  induction l with
  | nil => rfl
  | cons e rest ih =>
    obtain ⟨k0, v0⟩ := e
    simp only [List.map_cons, List.mem_cons, not_or] at h
    obtain ⟨h1, h2⟩ := h
    simp only [alookup]
    rw [if_neg (fun hh => h1 hh.symm)]
    exact ih h2

/-- `Object.assign` does not change keys the source object lacks. -/
theorem alookup_objAssign_not_mem (t src : Obj) (k : String)
    (h : alookup src k = none) : alookup (objAssign t src) k = alookup t k := by
  induction src generalizing t with
  | nil => rfl
  | cons e rest ih =>
    obtain ⟨k0, v0⟩ := e
    have he : k0 ≠ k := by
      intro hh
      simp [alookup, hh] at h
    have hrest : alookup rest k = none := by
      simpa [alookup, he] using h
    simp only [objAssign, List.foldl_cons]
    rw [show (List.foldl (fun acc e => aset acc e.1 e.2) (aset t k0 v0) rest) =
        objAssign (aset t k0 v0) rest from rfl, ih _ hrest,
      alookup_aset_ne _ _ _ _ (Ne.symm he)]

/-- After `_removeDocFromIndex`, the document id appears in no bucket. -/
theorem removeDocEntries_not_mem (entries : List (String × List String)) (docId : String) :
    ∀ p ∈ removeDocEntries entries docId, docId ∉ p.2 := by
  intro p hp
  simp only [removeDocEntries, List.mem_filter, List.mem_map] at hp
  obtain ⟨⟨e, _he, rfl⟩, _⟩ := hp
  simp

/-- The `min` check only ever reports `InvalidValue`. -/
theorem checkMin_shape (fld : String) (v : Value) (vs : Validators) (e : SchemaErr)
    (h : checkMin fld v vs = some e) : e = .invalidValue fld := by
  unfold checkMin at h; split at h <;> (try split at h) <;> simp_all

/-- The `max` check only ever reports `InvalidValue`. -/
theorem checkMax_shape (fld : String) (v : Value) (vs : Validators) (e : SchemaErr)
    (h : checkMax fld v vs = some e) : e = .invalidValue fld := by
  unfold checkMax at h; split at h <;> (try split at h) <;> simp_all

/-- The `minLength` check only ever reports `InvalidLength`. -/
theorem checkMinLength_shape (fld : String) (v : Value) (vs : Validators) (e : SchemaErr)
    (h : checkMinLength fld v vs = some e) : e = .invalidLength fld := by
  unfold checkMinLength at h; split at h <;> (try split at h) <;> simp_all

/-- The `maxLength` check only ever reports `InvalidLength`. -/
theorem checkMaxLength_shape (fld : String) (v : Value) (vs : Validators) (e : SchemaErr)
    (h : checkMaxLength fld v vs = some e) : e = .invalidLength fld := by
  unfold checkMaxLength at h; split at h <;> (try split at h) <;> simp_all

/-- The `pattern` check only ever reports `InvalidRegex`. -/
theorem checkPattern_shape (fld : String) (v : Value) (vs : Validators) (e : SchemaErr)
    (h : checkPattern fld v vs = some e) : e = .invalidRegex fld := by
  unfold checkPattern at h; split at h <;> (try split at h) <;> simp_all

/-- The `enum` check only ever reports `InvalidEnum`. -/
theorem checkEnum_shape (fld : String) (v : Value) (vs : Validators) (e : SchemaErr)
    (h : checkEnum fld v vs = some e) : e = .invalidEnum fld := by
  unfold checkEnum at h; split at h <;> (try split at h) <;> simp_all

/-- `_runValidators` reports only the four constraint error kinds — never
`RequiredField`. -/
theorem runValidators_shape (fld : String) (v : Value) (vs : Validators) (e : SchemaErr)
    (h : runValidators fld v vs = some e) :
    e = .invalidValue fld ∨ e = .invalidLength fld ∨ e = .invalidRegex fld ∨
      e = .invalidEnum fld := by
  unfold runValidators at h
  cases h1 : checkMin fld v vs with
  | some x =>
    rw [h1] at h; simp at h; exact Or.inl (h ▸ checkMin_shape fld v vs x h1)
  | none =>
  rw [h1] at h; simp at h
  cases h2 : checkMax fld v vs with
  | some x =>
    rw [h2] at h; simp at h; exact Or.inl (h ▸ checkMax_shape fld v vs x h2)
  | none =>
  rw [h2] at h; simp at h
  cases h3 : checkMinLength fld v vs with
  | some x =>
    rw [h3] at h; simp at h
    exact Or.inr (Or.inl (h ▸ checkMinLength_shape fld v vs x h3))
  | none =>
  rw [h3] at h; simp at h
  cases h4 : checkMaxLength fld v vs with
  | some x =>
    rw [h4] at h; simp at h
    exact Or.inr (Or.inl (h ▸ checkMaxLength_shape fld v vs x h4))
  | none =>
  rw [h4] at h; simp at h
  cases h5 : checkPattern fld v vs with
  | some x =>
    rw [h5] at h; simp at h
    exact Or.inr (Or.inr (Or.inl (h ▸ checkPattern_shape fld v vs x h5)))
  | none =>
  rw [h5] at h; simp at h
  exact Or.inr (Or.inr (Or.inr (checkEnum_shape fld v vs e h)))

/-- The pass-through of extra keys in non-strict mode never writes a key
the schema defines. -/
theorem alookup_extrasFold (definition : List (String × FieldDef)) (doc : Obj) (f : String)
    (hf : (alookup definition f).isSome = true) :
    ∀ acc : Obj,
      alookup (doc.foldl
        (fun a e =>
          if (alookup definition e.1).isNone && ¬ strStartsWith e.1 "_" then aset a e.1 e.2
          else a) acc) f = alookup acc f := by
  induction doc with
  | nil => intro acc; rfl
  | cons e rest ih =>
    intro acc
    simp only [List.foldl_cons]
    by_cases hkey : e.1 = f
    · have hnone : (alookup definition e.1).isNone = false := by
        rw [hkey]
        cases hs : alookup definition f
        · rw [hs] at hf; simp at hf
        · simp
      rw [hnone]
      simp only [Bool.false_and, Bool.false_eq_true, if_neg, not_false_iff]
      exact ih acc
    · by_cases hcond : ((alookup definition e.1).isNone && ¬ strStartsWith e.1 "_" : Bool) = true
      · rw [if_pos hcond, ih (aset acc e.1 e.2),
          alookup_aset_ne _ _ _ _ (fun hh => hkey hh.symm)]
      · rw [if_neg hcond]
        exact ih acc

/-- The chunks produced by the splitting loop: each is a slice of at most
`chunkSize` characters drawn from the input. -/
theorem splitChunksGo_spec (chunkSize : Nat) :
    ∀ (fuel : Nat) (cs : List Char), cs.length ≤ fuel →
      ∀ chunk ∈ splitChunksGo chunkSize fuel cs,
        chunk.length ≤ chunkSize ∧ ∀ c ∈ chunk, c ∈ cs := by
  intro fuel
  induction fuel with
  | zero =>
    intro cs hlen chunk hc
    cases cs with
    | nil => simp [splitChunksGo] at hc
    | cons c rest => simp at hlen
  | succ n ih =>
    intro cs hlen chunk hc
    cases cs with
    | nil => simp [splitChunksGo] at hc
    | cons c rest =>
      simp only [splitChunksGo, List.mem_cons] at hc
      rcases hc with rfl | hc
      · constructor
        · simp [List.length_take]
        · intro x hx
          exact List.mem_of_mem_take hx
      · have hlen2 : (rest.drop (chunkSize - 1)).length ≤ n := by
          simp only [List.length_drop]
          simp only [List.length_cons] at hlen
          omega
        obtain ⟨hl, hs⟩ := ih (rest.drop (chunkSize - 1)) hlen2 chunk hc
        exact ⟨hl, fun x hx => List.mem_cons_of_mem c (List.mem_of_mem_drop (hs x hx))⟩

/-- An all-ASCII string occupies exactly one byte per character in UTF-8. -/
theorem utf8ByteLength_ascii (chunk : List Char) (h : ∀ c ∈ chunk, c.toNat < 128) :
    utf8ByteLength chunk = chunk.length := by
  induction chunk with
  | nil => rfl
  | cons c rest ih =>
    have hc : c.toNat < 128 := h c (List.mem_cons_self c rest)
    simp only [utf8ByteLength, List.map_cons, List.sum_cons, List.length_cons] at *
    rw [show utf8Len c = 1 from by simp [utf8Len]; omega]
    rw [ih (fun x hx => h x (List.mem_cons_of_mem c hx))]
    omega

/-- A lowercase hex digit also matches the case-insensitive class. -/
theorem isHexDigitLower_imp_CI (c : Char) (h : isHexDigitLower c = true) :
    isHexDigitCI c = true := by
  simp only [isHexDigitLower, Bool.or_eq_true, Bool.and_eq_true, decide_eq_true_eq] at h
  simp only [isHexDigitCI, Bool.or_eq_true, Bool.and_eq_true, decide_eq_true_eq]
  tauto

end DocuDB

namespace DocuDB

/-! ## Claim theorems -/

/-- C1: the claim says `findByIndex` returns the stored id list under the
value key when an index exists for `(collection, field)` and the absent
sentinel `null` when none does.  The source inverts the guard
(`if (index !== undefined) return null`, commented "No index for this
field"): evaluated on a state holding an index for `users.email` with a
non-empty bucket it returns `null`, and without any index it dereferences
`undefined` (a TypeError) instead of returning `null`.  This contradicts
the claim, the function's own comment, its JSDoc, and the spec. -/
theorem findByIndex_inverted_guard :
    findByIndexModel
      [("users:email", ⟨.single "email", false, false, [("string:a", ["d1"])]⟩)]
      "users" "email" (some (.vStr "a")) = .retNull ∧
    findByIndexModel [] "users" "email" (some (.vStr "a")) = .jsTypeError :=
  ⟨rfl, rfl⟩

/-- C2: the claim says `$exists: false` matches exactly the absent fields.
The source tests the operand with `criteriaValue !== undefined`, so any
non-`undefined` operand — including `false` — demands the field to be
present: with operand `false`, an absent field (`docValue = undefined`)
does not match and a present field does, the exact opposite of the claim.
Only the operand `undefined` selects the absence test. -/
theorem existsFalse_behaves_like_existsTrue :
    evaluateOperatorExists none (some (.vBool false)) = false ∧
    evaluateOperatorExists (some (.vNum 1)) (some (.vBool false)) = true ∧
    evaluateOperatorExists none none = true :=
  ⟨rfl, rfl, rfl⟩

/-- C3 counterexample: the claim says a `UniqueViolation` raised by
`updateIndex` leaves all of the collection's index entry maps unchanged.
With two indexes — a non-unique one on `a` and a unique one on `b` owned
by `d1` — indexing the document `{a: 1, b: 1}` as `d2` first mutates the
`a`-index (adding `d2` under `number:1`) and only then throws on the
`b`-index, so the `a`-index map differs from its pre-call state. -/
theorem updateIndex_violation_leaves_earlier_index_mutated :
    updateIndexList "c" "d2" [("a", .vNum 1), ("b", .vNum 1)]
      [("c:a", ⟨.single "a", false, false, []⟩),
       ("c:b", ⟨.single "b", true, false, [("number:1", ["d1"])]⟩)] =
    (some .uniqueViolation,
      [("c:a", ⟨.single "a", false, false, [("number:1", ["d2"])]⟩),
       ("c:b", ⟨.single "b", true, false, [("number:1", ["d1"])]⟩)]) ∧
    ([("c:a", (⟨.single "a", false, false, [("number:1", ["d2"])]⟩ : Index)),
      ("c:b", ⟨.single "b", true, false, [("number:1", ["d1"])]⟩)] ≠
     [("c:a", ⟨.single "a", false, false, []⟩),
      ("c:b", ⟨.single "b", true, false, [("number:1", ["d1"])]⟩)]) :=
  ⟨by decide, by decide⟩

/-- C3 (amended): within each single index the uniqueness check does
precede any mutation, so when the collection has exactly one index a
`UniqueViolation` from `updateIndex` leaves the index map exactly as it
was; with several indexes, only the indexes processed before the violating
one may have been mutated. -/
theorem updateIndex_violation_single_index_unchanged (k : String) (idx : Index)
    (col docId : String) (doc : Obj) (e : IndexErr) (l : List (String × Index))
    (h : updateIndexList col docId doc [(k, idx)] = (some e, l)) :
    l = [(k, idx)] := by
  by_cases hs : strStartsWith k (col ++ ":")
  · simp only [updateIndexList, hs, if_pos] at h
    cases hstep : stepIndex docId doc idx with
    | none =>
      rw [hstep] at h
      exact (Prod.mk.injEq _ _ _ _ ▸ h).2.symm
    | some idx2 =>
      rw [hstep] at h
      simp [updateIndexList] at h
  · simp [updateIndexList, hs] at h

/-- C3 witness: a concrete one-index collection in which indexing `d2`
violates the unique index owned by `d1`, leaving the map unchanged. -/
theorem updateIndex_violation_single_index_unchanged_witness :
    ([("c:b", (⟨.single "b", true, false, [("number:1", ["d1"])]⟩ : Index))] :
      List (String × Index)) =
      [("c:b", ⟨.single "b", true, false, [("number:1", ["d1"])]⟩)] :=
  updateIndex_violation_single_index_unchanged "c:b"
    ⟨.single "b", true, false, [("number:1", ["d1"])]⟩ "c" "d2"
    [("b", .vNum 1)] .uniqueViolation _ (by decide)

/-- C4 counterexample: the claim says a non-sparse index records an entry
even when the projected value is absent.  Evaluating `updateIndex` on a
non-sparse index over `a` with a document lacking `a` records nothing: the
entry map stays empty, because the append is guarded by
`value !== undefined` regardless of `sparse`. -/
theorem updateIndex_nonsparse_absent_records_no_entry :
    updateIndexList "c" "d7" [("x", .vNum 3)]
      [("c:a", ⟨.single "a", false, false, []⟩)] =
      (none, [("c:a", ⟨.single "a", false, false, []⟩)]) := by
  decide

/-- C4 (amended): when the projected value of the indexed field is absent,
`updateIndex` adds no entry for the document — for sparse and non-sparse
indexes alike.  (The sparse `continue` compares `index.sparse` with
`undefined` and never fires; the append is guarded by
`value !== undefined`; prior entries of the document are removed.) -/
theorem stepIndex_absent_value_adds_no_entry (idx : Index) (docId : String) (doc : Obj)
    (h : projectIndexValue idx doc = none) :
    ∃ idx2, stepIndex docId doc idx = some idx2 ∧
      idx2.entries = removeDocEntries idx.entries docId ∧
      ∀ p ∈ idx2.entries, docId ∉ p.2 := by
  refine ⟨{ idx with entries := removeDocEntries idx.entries docId }, ?_, rfl,
    removeDocEntries_not_mem idx.entries docId⟩
  simp [stepIndex, h, boolEqUndefined]

/-- C4 witness: a sparse index over `a` and a document lacking `a` — the
step succeeds and leaves no bucket containing the document. -/
theorem stepIndex_absent_value_adds_no_entry_witness :
    projectIndexValue ⟨.single "a", false, true, []⟩ [("x", .vNum 3)] = none ∧
    ∃ idx2, stepIndex "d7" [("x", .vNum 3)] ⟨.single "a", false, true, []⟩ = some idx2 ∧
      idx2.entries = removeDocEntries [] "d7" ∧ ∀ p ∈ idx2.entries, "d7" ∉ p.2 :=
  ⟨rfl, stepIndex_absent_value_adds_no_entry ⟨.single "a", false, true, []⟩ "d7"
    [("x", .vNum 3)] rfl⟩

/-- C5 counterexample: the claim says a `null` value passes the required
check and is kept rather than replaced by a default.  The validator treats
`null` like absent on both counts: a required string field holding `null`
raises `RequiredField`, and a `null` field with a static default comes out
holding the default. -/
theorem validate_null_fails_required_and_takes_default :
    validateDoc [("a", { type := some .tString, required := true })] ⟨true, false⟩
      [("a", .vNull)] 0 = .error (.requiredField "a") ∧
    validateDoc [("b", { default := some (.value (.vNum 7)) })] ⟨true, false⟩
      [("b", .vNull)] 0 = .ok [("b", .vNum 7)] :=
  ⟨rfl, rfl⟩

/-- C5 (amended): `Schema.validate` treats `null` like absent.  For a
one-field schema: (1) with `required`, `RequiredField` is raised exactly
when the field is absent **or null**; (2) a static default replaces both
absent and `null` values (so `null` is not kept). -/
theorem validate_treats_null_like_absent (f : String) (fd : FieldDef)
    (opts : SchemaOptions) (doc : Obj) (now : Int) :
    (fd.required = true →
      ((validateDoc [(f, fd)] opts doc now = .error (.requiredField f)) ↔
        isNullish (alookup doc f) = true)) ∧
    (∀ dv out, fd.required = false → fd.default = some (.value dv) →
      isNullish (alookup doc f) = true → opts.timestamps = false →
      validateDoc [(f, fd)] opts doc now = .ok out →
      alookup out f = some dv) := by
  constructor
  · intro hreq
    constructor
    · intro h
      by_contra hnn
      have hnull : isNullish (alookup doc f) = false := by
        cases hq : isNullish (alookup doc f)
        · rfl
        · exact absurd hq hnn
      obtain ⟨v, hv, hvn⟩ : ∃ v, alookup doc f = some v ∧ isNullish (some v) = false := by
        cases hval : alookup doc f with
        | none => rw [hval] at hnull; simp [isNullish] at hnull
        | some v => exact ⟨v, rfl, by rw [← hval]; exact hnull⟩
      have hvf : ∀ e, validateFields doc [(f, fd)] [] = .error e → e ≠ .requiredField f := by
        intro e he
        simp only [validateFields, hv, hreq, hvn, Bool.true_and, Bool.false_eq_true,
          if_neg, not_false_iff] at he
        by_cases ht : validateType v fd.type
        · simp only [ht, not_true, if_neg, not_false_iff] at he
          cases hval2 : fd.validate with
          | none => rw [hval2] at he; simp [validateFields] at he
          | some vs =>
            simp only [hval2] at he
            cases hrv : runValidators f v vs with
            | none => rw [hrv] at he; simp [validateFields] at he
            | some e2 =>
              rw [hrv] at he
              simp only [Except.error.injEq] at he
              subst he
              rcases runValidators_shape f v vs e2 hrv with h1 | h1 | h1 | h1 <;> simp [h1]
        · have ht2 : validateType v fd.type = false := by
            cases hq : validateType v fd.type
            · rfl
            · exact absurd hq ht
          simp only [ht2, Bool.false_eq_true, not_false_iff, if_pos,
            Except.error.injEq] at he
          subst he
          simp
      cases hvfr : validateFields doc [(f, fd)] [] with
      | error e =>
        have hne := hvf e hvfr
        unfold validateDoc at h
        rw [hvfr] at h
        simp only [Except.error.injEq] at h
        exact hne h
      | ok acc =>
        unfold validateDoc at h
        rw [hvfr] at h
        by_cases hstrict : opts.strict
        · simp only [hstrict, if_pos] at h
          cases hoff : doc.find? (fun e => (alookup [(f, fd)] e.1).isNone &&
              ¬ strStartsWith e.1 "_") with
          | some e2 => rw [hoff] at h; simp at h
          | none => rw [hoff] at h; simp at h
        · simp only [hstrict, Bool.false_eq_true, if_neg, not_false_iff] at h
          simp at h
    · intro hnull
      unfold validateDoc
      simp [validateFields, hreq, hnull]
  · intro dv out hreq hdef hnull hts hok
    have hvf : validateFields doc [(f, fd)] [] = .ok (aset [] f dv) := by
      simp [validateFields, hreq, hnull, hdef]
    unfold validateDoc at hok
    rw [hvf] at hok
    by_cases hstrict : opts.strict
    · simp only [hstrict, if_pos] at hok
      cases hoff : doc.find? (fun e => (alookup [(f, fd)] e.1).isNone &&
          ¬ strStartsWith e.1 "_") with
      | some e2 => rw [hoff] at hok; simp at hok
      | none =>
        rw [hoff] at hok
        simp only [applyTimestamps, hts, Bool.false_eq_true, if_neg, not_false_iff,
          Except.ok.injEq] at hok
        subst hok
        exact alookup_aset_self [] f dv
    · simp only [hstrict, Bool.false_eq_true, if_neg, not_false_iff,
        applyTimestamps, hts, Except.ok.injEq] at hok
      subst hok
      rw [alookup_extrasFold [(f, fd)] doc f (by simp [alookup])]
      exact alookup_aset_self [] f dv

/-- C5 witness: the required-with-null and default-replaces-null facts at
concrete inputs, obtained from the amended theorem. -/
theorem validate_treats_null_like_absent_witness :
    validateDoc [("a", ({ type := some .tString, required := true } : FieldDef))]
        ⟨true, false⟩ [("a", .vNull)] 0 = .error (.requiredField "a") ∧
    alookup [("b", Value.vNum 7)] "b" = some (.vNum 7) :=
  ⟨((validate_treats_null_like_absent "a" { type := some .tString, required := true }
      ⟨true, false⟩ [("a", .vNull)] 0).1 rfl).mpr rfl,
   (validate_treats_null_like_absent "b" { default := some (.value (.vNum 7)) }
      ⟨true, false⟩ [("b", .vNull)] 0).2 (.vNum 7) [("b", .vNum 7)] rfl rfl rfl rfl rfl⟩

/-- C7 counterexample: the claim says every id-taking controller method
applies the same validation rule, under which a well-formed UUIDv4 is
accepted whenever no schema pattern overrides.  On a collection without a
schema holding exactly one document under a UUIDv4 id, `findById` returns
the document but `getPosition` rejects the very same id with `InvalidId`
(its hard-coded lowercase-24-hex test), instead of returning position 0. -/
theorem getPosition_rejects_uuid_findById_accepts :
    (findByIdModel
        ⟨"c", [],
         [("123e4567-e89b-42d3-a456-426614174000",
           ⟨[("_id", .vStr "123e4567-e89b-42d3-a456-426614174000")], ["chunk_0.gz"]⟩)],
         ⟨1, ["123e4567-e89b-42d3-a456-426614174000"], 0⟩, [], none⟩
        "123e4567-e89b-42d3-a456-426614174000").map Prod.fst =
      .ok (some [("_id", .vStr "123e4567-e89b-42d3-a456-426614174000")]) ∧
    getPositionModel
        ⟨"c", [],
         [("123e4567-e89b-42d3-a456-426614174000",
           ⟨[("_id", .vStr "123e4567-e89b-42d3-a456-426614174000")], ["chunk_0.gz"]⟩)],
         ⟨1, ["123e4567-e89b-42d3-a456-426614174000"], 0⟩, [], none⟩
        "123e4567-e89b-42d3-a456-426614174000" = .error .invalidId :=
  ⟨rfl, rfl⟩

/-- C7 (amended): `findById`, `updateById` and `deleteById` share the
stated rule (schema `_id` pattern present → string check only, otherwise
`isValidID`): without a pattern they all reject exactly the ids failing
`isValidID`.  `getPosition` instead applies a hard-coded lowercase-24-hex
test: it rejects every id failing that test — including valid UUIDs and
uppercase Mongo ids — and the ids it accepts form a strict subset of
`isValidID`. -/
theorem id_validation_rules_by_method (s : CollectionState) (id : String) :
    (hasIdPatternState s = false → isValidID id = false →
      findByIdModel s id = .error .invalidId ∧
      (∀ u now sp, updateByIdModel s id u now sp = .error .invalidId) ∧
      (∀ now, deleteByIdModel s id now = .error .invalidId)) ∧
    (idCheckGetPosition id = false → getPositionModel s id = .error .invalidId) ∧
    (idCheckGetPosition id = true → isValidID id = true) := by
  refine ⟨fun h1 h2 => ?_, fun h => ?_, fun h => ?_⟩
  · have hc : idCheckStd (hasIdPatternState s) id = false := by
      simp [idCheckStd, h1, h2]
    exact ⟨by simp [findByIdModel, hc],
      fun u now sp => by simp [updateByIdModel, hc],
      fun now => by simp [deleteByIdModel, hc]⟩
  · simp [getPositionModel, h]
  · simp only [idCheckGetPosition, Bool.and_eq_true, decide_eq_true_eq,
      List.all_eq_true] at h
    obtain ⟨hlen, hall⟩ := h
    have hm : isValidMongoID id = true := by
      simp only [isValidMongoID, Bool.and_eq_true, decide_eq_true_eq, List.all_eq_true]
      exact ⟨hlen, fun c hc => isHexDigitLower_imp_CI c (hall c hc)⟩
    simp [isValidID, hm]

/-- C7 witness: the shared rule rejecting a malformed id on `findById`, and
the inclusion of `getPosition`-accepted ids in `isValidID`, at concrete
inputs. -/
theorem id_validation_rules_by_method_witness :
    findByIdModel ⟨"c", [], [], ⟨0, [], 0⟩, [], none⟩ "nope" = .error .invalidId ∧
    isValidID "aaaaaaaaaaaaaaaaaaaaaaaa" = true :=
  ⟨((id_validation_rules_by_method ⟨"c", [], [], ⟨0, [], 0⟩, [], none⟩ "nope").1
      rfl (by decide)).1,
   (id_validation_rules_by_method ⟨"c", [], [], ⟨0, [], 0⟩, [], none⟩
      "aaaaaaaaaaaaaaaaaaaaaaaa").2.2 (by decide)⟩

/-- C8 counterexample: the claim bounds every chunk by `chunkSize` bytes of
the UTF-8-encoded JSON serialization.  With `chunkSize = 1` and the
payload string `é` (whose JSON is the three JS characters `"é"`), the
middle chunk is the single character `é`, which occupies two UTF-8 bytes —
exceeding the claimed one-byte bound. -/
theorem chunk_exceeds_byte_bound :
    (saveDataChunks 1 (.vStr "é")).map utf8ByteLength = [1, 2, 1] ∧
    ¬ ∀ chunk ∈ saveDataChunks 1 (.vStr "é"), utf8ByteLength chunk ≤ 1 := by
  refine ⟨by decide, fun h => ?_⟩
  have h2 := h ['é'] (by decide)
  exact absurd h2 (by decide)

/-- C8 (amended): each chunk produced by `saveData` holds at most
`chunkSize` JS string characters (UTF-16 code units) of the payload's JSON
serialization — the source slices the string, not its UTF-8 encoding.
When the serialization is pure ASCII the character bound and the byte
bound coincide, so the claimed byte bound holds exactly for ASCII
serializations. -/
theorem chunks_bounded_by_code_units (chunkSize : Nat) (data : Value)
    (_h1 : 1 ≤ chunkSize) :
    ∀ chunk ∈ saveDataChunks chunkSize data,
      chunk.length ≤ chunkSize ∧
      ((∀ c ∈ (jsonStringify data).data, c.toNat < 128) →
        utf8ByteLength chunk ≤ chunkSize) := by
  intro chunk hc
  obtain ⟨hl, hs⟩ := splitChunksGo_spec chunkSize (jsonStringify data).data.length
    (jsonStringify data).data le_rfl chunk hc
  refine ⟨hl, fun hascii => ?_⟩
  rw [utf8ByteLength_ascii chunk (fun c hcc => hascii c (hs c hcc))]
  exact hl

/-- C8 witness: the bound evaluated for the payload `123` at
`chunkSize = 4`. -/
theorem chunks_bounded_by_code_units_witness :
    1 ≤ 4 ∧ ∀ chunk ∈ saveDataChunks 4 (.vNum 123),
      chunk.length ≤ 4 ∧
      ((∀ c ∈ (jsonStringify (.vNum 123)).data, c.toNat < 128) →
        utf8ByteLength chunk ≤ 4) :=
  ⟨by decide, chunks_bounded_by_code_units 4 (.vNum 123) (by decide)⟩

/-- C10: `deleteById` on a well-formed id that identifies no stored
document returns `false` and leaves the collection state — cache, disk
documents, metadata (count, order, timestamps) and all indexes — exactly
unchanged: the absence is detected by `findById` before any mutation. -/
theorem deleteById_missing_id_returns_false_unchanged (s : CollectionState) (id : String)
    (now : Int) (hid : idCheckStd (hasIdPatternState s) id = true)
    (hc : alookup s.cache id = none) (hd : alookup s.disk id = none) :
    deleteByIdModel s id now = .ok (false, s) := by
  simp [deleteByIdModel, findByIdModel, hid, hc, hd]

/-- C10 witness: deleting a valid Mongo-style id from an empty collection. -/
theorem deleteById_missing_id_returns_false_unchanged_witness :
    deleteByIdModel ⟨"c", [], [], ⟨0, [], 0⟩, [], none⟩ "aaaaaaaaaaaaaaaaaaaaaaaa" 9 =
      .ok (false, ⟨"c", [], [], ⟨0, [], 0⟩, [], none⟩) :=
  deleteById_missing_id_returns_false_unchanged ⟨"c", [], [], ⟨0, [], 0⟩, [], none⟩
    "aaaaaaaaaaaaaaaaaaaaaaaa" 9 (by decide) rfl rfl

end DocuDB

namespace DocuDB

/-- `_setNestedValue` writes only under the first path segment: every
other top-level key keeps its value. -/
theorem alookup_setNestedValue_ne (o : Obj) (path : String) (v : Value) (k : String)
    (o2 : Obj) (hok : setNestedValue o path v = .ok o2) (hne : headSegment path ≠ k) :
    alookup o2 k = alookup o k := by
  unfold setNestedValue at hok
  cases hsp : splitPath path with
  | nil =>
    rw [hsp] at hok
    simp only [setNestedGo, Except.ok.injEq] at hok
    subst hok
    rfl
  | cons h t =>
    have hh : h ≠ k := by simpa [headSegment, hsp] using hne
    cases t with
    | nil =>
      rw [hsp] at hok
      simp only [setNestedGo, Except.ok.injEq] at hok
      subst hok
      exact alookup_aset_ne o h k v (Ne.symm hh)
    | cons r1 r2 =>
      rw [hsp] at hok
      simp only [setNestedGo] at hok
      cases hrec : setNestedGo
          (match alookup o h with
           | none => Value.vObj []
           | some c => if typeofIsObject c then c else Value.vObj []) (r1 :: r2) v with
      | error e => rw [hrec] at hok; simp at hok
      | ok c2 =>
        rw [hrec] at hok
        simp only [Except.ok.injEq] at hok
        subst hok
        exact alookup_aset_ne o h k c2 (Ne.symm hh)

/-- `_unsetNestedValue` deletes only under the first path segment: every
other top-level key keeps its value. -/
theorem alookup_unsetNestedValue_ne (o : Obj) (path : String) (k : String)
    (o2 : Obj) (hok : unsetNestedValue o path = .ok o2) (hne : headSegment path ≠ k) :
    alookup o2 k = alookup o k := by
  unfold unsetNestedValue at hok
  cases hsp : splitPath path with
  | nil =>
    rw [hsp] at hok
    simp only [unsetNestedGo, Except.ok.injEq] at hok
    subst hok
    rfl
  | cons h t =>
    have hh : h ≠ k := by simpa [headSegment, hsp] using hne
    cases t with
    | nil =>
      rw [hsp] at hok
      simp only [unsetNestedGo, Except.ok.injEq] at hok
      subst hok
      exact alookup_aerase_ne o h k (Ne.symm hh)
    | cons r1 r2 =>
      rw [hsp] at hok
      simp only [unsetNestedGo] at hok
      cases halo : alookup o h with
      | none =>
        rw [halo] at hok
        simp only [Except.ok.injEq] at hok
        subst hok
        rfl
      | some c =>
        simp only [halo] at hok
        by_cases hto : typeofIsObject c = true
        · rw [if_pos hto] at hok
          cases hrec : unsetNestedGo c (r1 :: r2) with
          | error e => rw [hrec] at hok; simp at hok
          | ok c2 =>
            rw [hrec] at hok
            simp only [Except.ok.injEq] at hok
            subst hok
            exact alookup_aset_ne o h k c2 (Ne.symm hh)
        · rw [if_neg hto] at hok
          simp only [Except.ok.injEq] at hok
          subst hok
          rfl

/-- The `$set` loop preserves every top-level key that no entry's first
path segment names. -/
theorem alookup_applySetEntries_ne (k : String) :
    ∀ (entries : List (String × Value)) (o o2 : Obj),
      applySetEntries o entries = .ok o2 →
      (∀ e ∈ entries, headSegment e.1 ≠ k) →
      alookup o2 k = alookup o k := by
  intro entries
  induction entries with
  | nil =>
    intro o o2 hok _
    simp only [applySetEntries, Except.ok.injEq] at hok
    subst hok
    rfl
  | cons e rest ih =>
    intro o o2 hok hne
    obtain ⟨p, v⟩ := e
    simp only [applySetEntries] at hok
    cases hstep : setNestedValue o p v with
    | error e2 => rw [hstep] at hok; simp at hok
    | ok o1 =>
      rw [hstep] at hok
      have h1 := alookup_setNestedValue_ne o p v k o1 hstep
        (hne (p, v) (List.mem_cons_self _ _))
      have h2 := ih o1 o2 hok (fun e2 he2 => hne e2 (List.mem_cons_of_mem _ he2))
      rw [h2, h1]

/-- The `$unset` loop preserves every top-level key that no key's first
path segment names. -/
theorem alookup_applyUnsetKeys_ne (k : String) :
    ∀ (keys : List String) (o o2 : Obj),
      applyUnsetKeys o keys = .ok o2 →
      (∀ p ∈ keys, headSegment p ≠ k) →
      alookup o2 k = alookup o k := by
  intro keys
  induction keys with
  | nil =>
    intro o o2 hok _
    simp only [applyUnsetKeys, Except.ok.injEq] at hok
    subst hok
    rfl
  | cons p rest ih =>
    intro o o2 hok hne
    simp only [applyUnsetKeys] at hok
    cases hstep : unsetNestedValue o p with
    | error e2 => rw [hstep] at hok; simp at hok
    | ok o1 =>
      rw [hstep] at hok
      have h1 := alookup_unsetNestedValue_ne o p k o1 hstep (hne p (List.mem_cons_self _ _))
      have h2 := ih o1 o2 hok (fun p2 hp2 => hne p2 (List.mem_cons_of_mem _ hp2))
      rw [h2, h1]

/-- The `$inc` loop preserves every top-level key that no entry's first
path segment names. -/
theorem alookup_applyIncEntries_ne (k : String) :
    ∀ (entries : List (String × Value)) (o o2 : Obj),
      applyIncEntries o entries = .ok o2 →
      (∀ e ∈ entries, headSegment e.1 ≠ k) →
      alookup o2 k = alookup o k := by
  intro entries
  induction entries with
  | nil =>
    intro o o2 hok _
    simp only [applyIncEntries, Except.ok.injEq] at hok
    subst hok
    rfl
  | cons e rest ih =>
    intro o o2 hok hne
    obtain ⟨p, v⟩ := e
    simp only [applyIncEntries] at hok
    cases hcur : (match dbGetNestedValue o p with
                  | none => Value.vNum 0
                  | some Value.vNull => Value.vNum 0
                  | some c => c) with
    | vNum a =>
      simp only [hcur] at hok
      cases hstep : setNestedValue o p (jsAddNum a v) with
      | error e2 => rw [hstep] at hok; simp at hok
      | ok o1 =>
        rw [hstep] at hok
        have h1 := alookup_setNestedValue_ne o p (jsAddNum a v) k o1 hstep
          (hne (p, v) (List.mem_cons_self _ _))
        have h2 := ih o1 o2 hok (fun e2 he2 => hne e2 (List.mem_cons_of_mem _ he2))
        rw [h2, h1]
    | vNull => simp [hcur] at hok
    | vStr s2 => simp [hcur] at hok
    | vBool b => simp [hcur] at hok
    | vDate ms => simp [hcur] at hok
    | vArr xs => simp [hcur] at hok
    | vObj fs => simp [hcur] at hok

/-- `_applyUpdate` preserves a top-level key `k` whenever the update does
not write it: in the replacement path `k` is `_id` (always restored) or a
key the update object lacks; in the operator path no `$set`/`$unset`/`$inc`
entry starts its path at `k`. -/
theorem applyUpdate_preserves_key (doc update r : Obj) (k : String)
    (hok : applyUpdate doc update = .ok r)
    (hrep : k = "_id" ∨ alookup update k = none)
    (hset : ∀ sv, lookupNN update "$set" = some sv → ∀ e ∈ jsEntries sv, headSegment e.1 ≠ k)
    (hunset : ∀ uv, lookupNN update "$unset" = some uv → ∀ p ∈ jsKeys uv, headSegment p ≠ k)
    (hinc : ∀ iv, lookupNN update "$inc" = some iv → ∀ e ∈ jsEntries iv, headSegment e.1 ≠ k) :
    alookup r k = alookup doc k := by
  unfold applyUpdate at hok
  rw [deepCopyObj_eq_id] at hok
  by_cases hcond : (((lookupNN update "$set").isNone && (lookupNN update "$unset").isNone &&
      (lookupNN update "$inc").isNone) = true)
  · rw [if_pos hcond] at hok
    cases hidv : alookup doc "_id" with
    | some i =>
      simp only [hidv, Except.ok.injEq] at hok
      subst hok
      rcases hrep with rfl | hupd
      · rw [alookup_aset_self]
        exact hidv.symm
      · by_cases hkid : k = "_id"
        · subst hkid
          rw [alookup_aset_self]
          exact hidv.symm
        · rw [alookup_aset_ne _ _ _ _ hkid, alookup_objAssign_not_mem _ _ _ hupd]
    | none =>
      simp only [hidv, Except.ok.injEq] at hok
      subst hok
      rcases hrep with rfl | hupd
      · rw [alookup_aerase_self]
        exact hidv.symm
      · by_cases hkid : k = "_id"
        · subst hkid
          rw [alookup_aerase_self]
          exact hidv.symm
        · rw [alookup_aerase_ne _ _ _ hkid, alookup_objAssign_not_mem _ _ _ hupd]
  · rw [if_neg hcond] at hok
    cases hst1 : (match lookupNN update "$set" with
                  | some sv => applySetEntries doc (jsEntries sv)
                  | none => Except.ok doc) with
    | error e => simp [hst1] at hok
    | ok o1 =>
      have ho1 : alookup o1 k = alookup doc k := by
        cases hsv : lookupNN update "$set" with
        | some sv =>
          rw [hsv] at hst1
          exact alookup_applySetEntries_ne k (jsEntries sv) doc o1 hst1 (hset sv hsv)
        | none =>
          rw [hsv] at hst1
          simp only [Except.ok.injEq] at hst1
          subst hst1
          rfl
      simp only [hst1] at hok
      cases hst2 : (match lookupNN update "$unset" with
                    | some uv => applyUnsetKeys o1 (jsKeys uv)
                    | none => Except.ok o1) with
      | error e => simp [hst2] at hok
      | ok o2 =>
        have ho2 : alookup o2 k = alookup o1 k := by
          cases huv : lookupNN update "$unset" with
          | some uv =>
            rw [huv] at hst2
            exact alookup_applyUnsetKeys_ne k (jsKeys uv) o1 o2 hst2 (hunset uv huv)
          | none =>
            rw [huv] at hst2
            simp only [Except.ok.injEq] at hst2
            subst hst2
            rfl
        simp only [hst2] at hok
        cases hiv : lookupNN update "$inc" with
        | some iv =>
          rw [hiv] at hok
          have h3 := alookup_applyIncEntries_ne k (jsEntries iv) o2 r hok (hinc iv hiv)
          rw [h3, ho2, ho1]
        | none =>
          rw [hiv] at hok
          simp only [Except.ok.injEq] at hok
          subst hok
          rw [ho2, ho1]

/-- C9: an update whose only `$`-prefixed top-level keys are among
`$push`/`$pull`/`$addToSet` passes `updateById`'s operator validation, and
is then applied through the replacement path of `_applyUpdate`: the result
is the stored document shallow-merged with the update — the literal
operator key (e.g. the string `$push`) becomes an ordinary field — with
only `_id` restored; no array-mutation semantics run anywhere.  The
conclusion gives the full run of `updateById`: the merged document is
returned, written to disk and cache, and the metadata timestamp bumped. -/
theorem updateById_array_ops_replacement_path (s : CollectionState) (id : String)
    (doc : Obj) (paths : List String) (update : Obj) (i : Value) (now : Int)
    (sp : Obj → List String)
    (hschema : s.schema = none)
    (hid : isValidID id = true)
    (hcache : alookup s.cache id = some ⟨doc, paths⟩)
    (hidx : s.indices = [])
    (hops : ∀ k ∈ update.map Prod.fst, strStartsWith k "$" = true →
      k = "$push" ∨ k = "$pull" ∨ k = "$addToSet")
    (hdocid : alookup doc "_id" = some i) :
    updateByIdModel s id update now sp =
      .ok (some (aset (objAssign doc update) "_id" i),
        { s with
          disk := aset s.disk id ⟨aset (objAssign doc update) "_id" i,
            sp (aset (objAssign doc update) "_id" i)⟩,
          cache := aset s.cache id ⟨aset (objAssign doc update) "_id" i,
            sp (aset (objAssign doc update) "_id" i)⟩,
          metadata := { s.metadata with updated := now },
          indices := [] }) := by
  have hpat : hasIdPatternState s = false := by simp [hasIdPatternState, hschema]
  have hchk : idCheckStd (hasIdPatternState s) id = true := by simp [idCheckStd, hpat, hid]
  have hset : alookup update "$set" = none := by
    apply alookup_eq_none_of_not_mem
    intro hmem
    rcases hops "$set" hmem (by decide) with h | h | h <;> exact absurd h (by decide)
  have hunset : alookup update "$unset" = none := by
    apply alookup_eq_none_of_not_mem
    intro hmem
    rcases hops "$unset" hmem (by decide) with h | h | h <;> exact absurd h (by decide)
  have hinc : alookup update "$inc" = none := by
    apply alookup_eq_none_of_not_mem
    intro hmem
    rcases hops "$inc" hmem (by decide) with h | h | h <;> exact absurd h (by decide)
  have happly : applyUpdate doc update = .ok (aset (objAssign doc update) "_id" i) := by
    unfold applyUpdate
    rw [deepCopyObj_eq_id]
    simp [lookupNN, hset, hunset, hinc, hdocid]
  have hfind : findByIdModel s id = .ok (some doc, s) := by
    simp [findByIdModel, hchk, hcache]
  have hops2 : ((update.map Prod.fst).filter (fun k => strStartsWith k "$")).find?
      (fun op => ¬ validOperators.contains op) = none := by
    rw [List.find?_eq_none]
    intro x hx
    simp only [List.mem_filter] at hx
    rcases hops x hx.1 hx.2 with h | h | h <;> subst h <;> decide
  unfold updateByIdModel
  rw [hfind]
  simp only [hchk, not_true, Bool.true_eq_false, if_neg, not_false_iff, hops2,
    happly, hschema, hidx, updateIndexList]

/-- C9 witness: a collection without schema or indexes holding one cached
document; the update `{$push: {tags: "t"}}` passes validation and merges
the literal `$push` field into the document. -/
theorem updateById_array_ops_replacement_path_witness :
    updateByIdModel
        ⟨"c", [("aaaaaaaaaaaaaaaaaaaaaaaa",
            ⟨[("_id", .vStr "aaaaaaaaaaaaaaaaaaaaaaaa"), ("x", .vNum 1)], ["p0"]⟩)],
         [], ⟨1, ["aaaaaaaaaaaaaaaaaaaaaaaa"], 0⟩, [], none⟩
        "aaaaaaaaaaaaaaaaaaaaaaaa" [("$push", .vObj [("tags", .vStr "t")])] 5
        (fun _ => ["p1"]) =
      .ok (some [("_id", .vStr "aaaaaaaaaaaaaaaaaaaaaaaa"), ("x", .vNum 1),
          ("$push", .vObj [("tags", .vStr "t")])],
        ⟨"c",
         [("aaaaaaaaaaaaaaaaaaaaaaaa",
            ⟨[("_id", .vStr "aaaaaaaaaaaaaaaaaaaaaaaa"), ("x", .vNum 1),
              ("$push", .vObj [("tags", .vStr "t")])], ["p1"]⟩)],
         [("aaaaaaaaaaaaaaaaaaaaaaaa",
            ⟨[("_id", .vStr "aaaaaaaaaaaaaaaaaaaaaaaa"), ("x", .vNum 1),
              ("$push", .vObj [("tags", .vStr "t")])], ["p1"]⟩)],
         ⟨1, ["aaaaaaaaaaaaaaaaaaaaaaaa"], 5⟩, [], none⟩) :=
  (updateById_array_ops_replacement_path
    ⟨"c", [("aaaaaaaaaaaaaaaaaaaaaaaa",
        ⟨[("_id", .vStr "aaaaaaaaaaaaaaaaaaaaaaaa"), ("x", .vNum 1)], ["p0"]⟩)],
     [], ⟨1, ["aaaaaaaaaaaaaaaaaaaaaaaa"], 0⟩, [], none⟩
    "aaaaaaaaaaaaaaaaaaaaaaaa"
    [("_id", .vStr "aaaaaaaaaaaaaaaaaaaaaaaa"), ("x", .vNum 1)] ["p0"]
    [("$push", .vObj [("tags", .vStr "t")])]
    (Value.vStr "aaaaaaaaaaaaaaaaaaaaaaaa") 5 (fun _ => ["p1"])
    rfl (by decide) rfl rfl (by decide) rfl).trans rfl

/-- C6 counterexample: the claim says every accepted update preserves
`_id`.  The operator update `{$set: {_id: "bbb…"}}` is accepted and
applied: `updateById` returns a document whose `_id` is the new string
`bbbbbbbbbbbbbbbbbbbbbbbb`, not the stored `aaaaaaaaaaaaaaaaaaaaaaaa`. -/
theorem updateById_set_overwrites_id :
    (match updateByIdModel
        ⟨"c", [("aaaaaaaaaaaaaaaaaaaaaaaa",
            ⟨[("_id", .vStr "aaaaaaaaaaaaaaaaaaaaaaaa"), ("x", .vNum 1)], ["p0"]⟩)],
         [], ⟨1, ["aaaaaaaaaaaaaaaaaaaaaaaa"], 0⟩, [], none⟩
        "aaaaaaaaaaaaaaaaaaaaaaaa"
        [("$set", .vObj [("_id", .vStr "bbbbbbbbbbbbbbbbbbbbbbbb")])] 7 (fun _ => ["p1"]) with
     | .ok (some r2, _) => alookup r2 "_id"
     | _ => none) = some (.vStr "bbbbbbbbbbbbbbbbbbbbbbbb") ∧
    ("bbbbbbbbbbbbbbbbbbbbbbbb" : String) ≠ "aaaaaaaaaaaaaaaaaaaaaaaa" :=
  ⟨rfl, by decide⟩

/-- C6 (amended): whenever `updateById` returns a document, that document
has the same `_id` and the same `_createdAt` as the stored one, provided
the update itself does not write those fields: the replacement object
lacks a `_createdAt` key (`_id` is always restored on that path), and no
`$set`/`$unset`/`$inc` entry has `_id` or `_createdAt` as the first
segment of its path. -/
theorem updateById_preserves_untargeted_id_createdAt (s : CollectionState) (id : String)
    (update : Obj) (now : Int) (sp : Obj → List String) (doc₀ : Obj)
    (s₁ : CollectionState) (r : Obj) (s2 : CollectionState)
    (hfound : findByIdModel s id = .ok (some doc₀, s₁))
    (hrun : updateByIdModel s id update now sp = .ok (some r, s2))
    (hcreated : alookup update "_createdAt" = none)
    (hset : ∀ sv, lookupNN update "$set" = some sv →
      ∀ e ∈ jsEntries sv, headSegment e.1 ≠ "_id" ∧ headSegment e.1 ≠ "_createdAt")
    (hunset : ∀ uv, lookupNN update "$unset" = some uv →
      ∀ p ∈ jsKeys uv, headSegment p ≠ "_id" ∧ headSegment p ≠ "_createdAt")
    (hinc : ∀ iv, lookupNN update "$inc" = some iv →
      ∀ e ∈ jsEntries iv, headSegment e.1 ≠ "_id" ∧ headSegment e.1 ≠ "_createdAt") :
    alookup r "_id" = alookup doc₀ "_id" ∧
    alookup r "_createdAt" = alookup doc₀ "_createdAt" := by
  have hchk : idCheckStd (hasIdPatternState s) id = true := by
    cases hx : idCheckStd (hasIdPatternState s) id
    · unfold findByIdModel at hfound
      simp [hx] at hfound
    · rfl
  unfold updateByIdModel at hrun
  simp only [hchk, not_true, Bool.true_eq_false, if_neg, not_false_iff, hfound] at hrun
  cases hops2 : ((update.map Prod.fst).filter (fun k => strStartsWith k "$")).find?
      (fun op => ¬ validOperators.contains op) with
  | some op =>
    rw [hops2] at hrun
    exact absurd hrun (by simp)
  | none =>
    rw [hops2] at hrun
    simp only [] at hrun
    cases happ : applyUpdate doc₀ update with
    | error e => simp [happ] at hrun
    | ok u =>
      simp only [happ] at hrun
      cases hsc : (match s.schema with
                   | some sch =>
                     match validateDoc sch.definition sch.options u now with
                     | .error e => some e
                     | .ok _ => none
                   | none => none) with
      | some e => simp [hsc] at hrun
      | none =>
        simp only [hsc] at hrun
        split at hrun
        · simp at hrun
        · simp only [Except.ok.injEq, Prod.mk.injEq, Option.some.injEq] at hrun
          obtain ⟨hur, _⟩ := hrun
          subst hur
          refine ⟨applyUpdate_preserves_key doc₀ update u "_id" happ (Or.inl rfl)
              (fun sv hsv e he => (hset sv hsv e he).1)
              (fun uv huv p hp => (hunset uv huv p hp).1)
              (fun iv hiv e he => (hinc iv hiv e he).1),
            applyUpdate_preserves_key doc₀ update u "_createdAt" happ (Or.inr hcreated)
              (fun sv hsv e he => (hset sv hsv e he).2)
              (fun uv huv p hp => (hunset uv huv p hp).2)
              (fun iv hiv e he => (hinc iv hiv e he).2)⟩

/-- C6 witness: updating `price` by `$set` on a collection whose stored
document carries `_id` and `_createdAt`; both come out unchanged. -/
theorem updateById_preserves_untargeted_id_createdAt_witness :
    alookup [("_id", Value.vStr "aaaaaaaaaaaaaaaaaaaaaaaa"), ("price", Value.vNum 180),
        ("_createdAt", Value.vDate 3)] "_id" =
      alookup [("_id", Value.vStr "aaaaaaaaaaaaaaaaaaaaaaaa"), ("price", Value.vNum 100),
        ("_createdAt", Value.vDate 3)] "_id" ∧
    alookup [("_id", Value.vStr "aaaaaaaaaaaaaaaaaaaaaaaa"), ("price", Value.vNum 180),
        ("_createdAt", Value.vDate 3)] "_createdAt" =
      alookup [("_id", Value.vStr "aaaaaaaaaaaaaaaaaaaaaaaa"), ("price", Value.vNum 100),
        ("_createdAt", Value.vDate 3)] "_createdAt" :=
  updateById_preserves_untargeted_id_createdAt
    ⟨"c", [("aaaaaaaaaaaaaaaaaaaaaaaa",
        ⟨[("_id", .vStr "aaaaaaaaaaaaaaaaaaaaaaaa"), ("price", .vNum 100),
          ("_createdAt", .vDate 3)], ["p0"]⟩)],
     [], ⟨1, ["aaaaaaaaaaaaaaaaaaaaaaaa"], 0⟩, [], none⟩
    "aaaaaaaaaaaaaaaaaaaaaaaa" [("$set", .vObj [("price", .vNum 180)])] 7 (fun _ => ["p1"])
    [("_id", .vStr "aaaaaaaaaaaaaaaaaaaaaaaa"), ("price", .vNum 100), ("_createdAt", .vDate 3)]
    ⟨"c", [("aaaaaaaaaaaaaaaaaaaaaaaa",
        ⟨[("_id", .vStr "aaaaaaaaaaaaaaaaaaaaaaaa"), ("price", .vNum 100),
          ("_createdAt", .vDate 3)], ["p0"]⟩)],
     [], ⟨1, ["aaaaaaaaaaaaaaaaaaaaaaaa"], 0⟩, [], none⟩
    [("_id", .vStr "aaaaaaaaaaaaaaaaaaaaaaaa"), ("price", .vNum 180), ("_createdAt", .vDate 3)]
    ⟨"c", [("aaaaaaaaaaaaaaaaaaaaaaaa",
        ⟨[("_id", .vStr "aaaaaaaaaaaaaaaaaaaaaaaa"), ("price", .vNum 180),
          ("_createdAt", .vDate 3)], ["p1"]⟩)],
     [("aaaaaaaaaaaaaaaaaaaaaaaa",
        ⟨[("_id", .vStr "aaaaaaaaaaaaaaaaaaaaaaaa"), ("price", .vNum 180),
          ("_createdAt", .vDate 3)], ["p1"]⟩)],
     ⟨1, ["aaaaaaaaaaaaaaaaaaaaaaaa"], 7⟩, [], none⟩
    rfl rfl rfl
    (fun sv hsv => by
      have h2 : Value.vObj [("price", Value.vNum 180)] = sv := Option.some.inj hsv
      subst h2
      decide)
    (fun uv huv => Option.noConfusion huv)
    (fun iv hiv => Option.noConfusion hiv)

end DocuDB
